import Mathlib

/-!
# A verification model of walk's `DataBinder` (databinder.go)

This file gives a shallow embedding of the data-binding core of the `walk`
repository (file `databinder.go`, package `walk`) and proves/refutes the
frozen specification claims about it.

Modelling conventions:
* Go `reflect` values reachable from the data source are modelled by the
  inductive `Val` (machine integers as `Int`/`Nat` with explicit wrapping,
  `float32`/`float64` as rationals that are fixed points of an explicit
  round-to-nearest-even rounding function, structs as named field lists,
  pointers carrying their pointee structurally).
* Fallible operations return explicit outcome types; Go panics are modelled
  by a dedicated `panicked` constructor carrying the runtime message, so a
  crash is distinguishable from a returned `error`.
* External collaborators that are part of the walk repository but not in the
  given source excerpt (the `Property`/`Widget` interfaces and the
  `EventPublisher`) are modelled from the spec, see `PropState`, `Widget`
  and the `publishCount`/listener bookkeeping.
* Go maps keyed by references are modelled as association lists keyed by
  numeric identities (`PropId`, widget ids); map iteration in the source
  only occurs where the result is order-independent.
-/

namespace Walk

/-- Signed integer widths of Go (`int` is 64-bit on the target platform). -/
inductive IntW where
  | i | i8 | i16 | i32 | i64
  deriving DecidableEq, Repr

/-- Unsigned integer widths of Go, including `uintptr` (64-bit target). -/
inductive UintW where
  | u | u8 | u16 | u32 | u64 | uptr
  deriving DecidableEq, Repr

/-- Floating point widths of Go. -/
inductive FloatW where
  | f32 | f64
  deriving DecidableEq, Repr

def IntW.bits : IntW → Nat
  | .i => 64 | .i8 => 8 | .i16 => 16 | .i32 => 32 | .i64 => 64

def UintW.bits : UintW → Nat
  | .u => 64 | .u8 => 8 | .u16 => 16 | .u32 => 32 | .u64 => 64 | .uptr => 64

def IntW.goName : IntW → String
  | .i => "int" | .i8 => "int8" | .i16 => "int16" | .i32 => "int32" | .i64 => "int64"

def UintW.goName : UintW → String
  | .u => "uint" | .u8 => "uint8" | .u16 => "uint16" | .u32 => "uint32"
  | .u64 => "uint64" | .uptr => "uintptr"

/-- Significand precision of a Go float width (24 bits for `float32`,
53 bits for `float64`). -/
def FloatW.prec : FloatW → Nat
  | .f32 => 24 | .f64 => 53

mutual
/-- Go types of the closed universe used by the model.  `tErr` stands for the
`error` interface type. -/
inductive Ty where
  | tInt (w : IntW)
  | tUint (w : UintW)
  | tFloat (w : FloatW)
  | tString
  | tErr
  | tStruct (name : String) (fs : TFields)
  | tPtr (e : Ty)

/-- Named fields of a struct type, in declaration order. -/
inductive TFields where
  | nil
  | cons (n : String) (t : Ty) (rest : TFields)
end

mutual
/-- Go values of the closed universe used by the model.  A pointer carries its
pointee structurally (`none` models a nil pointer); `vErrVal` models a value
whose dynamic type implements `error`. -/
inductive Val where
  | vInt (w : IntW) (n : Int)
  | vUint (w : UintW) (n : Nat)
  | vFloat (w : FloatW) (q : Rat)
  | vString (s : String)
  | vErrVal (msg : String)
  | vStruct (name : String) (fs : VFields)
  | vPtr (e : Ty) (target : Option Val)

/-- Named fields of a struct value, in declaration order. -/
inductive VFields where
  | nil
  | cons (n : String) (v : Val) (rest : VFields)
end

mutual
/-- Boolean equality of Go types (Go assignability restricted to the closed
universe: identical types). -/
def Ty.beq : Ty → Ty → Bool
  | .tInt w, .tInt w' => w = w'
  | .tUint w, .tUint w' => w = w'
  | .tFloat w, .tFloat w' => w = w'
  | .tString, .tString => true
  | .tErr, .tErr => true
  | .tStruct n fs, .tStruct n' fs' => n = n' && TFields.beq fs fs'
  | .tPtr e, .tPtr e' => Ty.beq e e'
  | _, _ => false

def TFields.beq : TFields → TFields → Bool
  | .nil, .nil => true
  | .cons n t r, .cons n' t' r' => n = n' && Ty.beq t t' && TFields.beq r r'
  | _, _ => false
end

mutual
/-- The Go type of a value. -/
def Val.typeOf : Val → Ty
  | .vInt w _ => .tInt w
  | .vUint w _ => .tUint w
  | .vFloat w _ => .tFloat w
  | .vString _ => .tString
  | .vErrVal _ => .tErr
  | .vStruct n fs => .tStruct n fs.typesOf
  | .vPtr e _ => .tPtr e

def VFields.typesOf : VFields → TFields
  | .nil => .nil
  | .cons n v r => .cons n v.typeOf r.typesOf
end

/-- `reflect.Type.Name()`: a pointer type is unnamed, hence `""`. -/
def Ty.goName : Ty → String
  | .tInt w => w.goName
  | .tUint w => w.goName
  | .tFloat .f32 => "float32"
  | .tFloat .f64 => "float64"
  | .tString => "string"
  | .tErr => "error"
  | .tStruct n _ => n
  | .tPtr _ => ""

def Val.tyName (v : Val) : String := v.typeOf.goName

/-- `reflect.Kind` name, as printed in reflect panic messages. -/
def Val.kindName : Val → String
  | .vInt _ _ => "int"
  | .vUint _ _ => "uint"
  | .vFloat _ _ => "float"
  | .vString _ => "string"
  | .vErrVal _ => "interface"
  | .vStruct _ _ => "struct"
  | .vPtr _ _ => "ptr"

/-- `v.Kind() == reflect.Ptr`. -/
def Val.kindIsPtr : Val → Bool
  | .vPtr _ _ => true
  | _ => false

/-- `v.Kind() == reflect.Struct`. -/
def Val.isStruct : Val → Bool
  | .vStruct _ _ => true
  | _ => false

/-- Whether `reflect.Value.IsNil` is legal on this kind (in this universe only
pointers; calling it on any other kind panics). -/
def Val.isNilable : Val → Bool
  | .vPtr _ _ => true
  | _ => false

/-- `v.IsNil()` for a pointer value. -/
def Val.isNilPtr : Val → Bool
  | .vPtr _ none => true
  | _ => false

/-- `reflect.Indirect`: dereference a non-nil pointer, return anything else
unchanged.  (A nil pointer is never dereferenced by the translated code: the
source checks `IsNil` first.) -/
def Val.indirect : Val → Val
  | .vPtr _ (some t) => t
  | v => v

/-- Replace the pointee of a pointer value (used to thread mutation through
the model; non-pointers are returned unchanged, which never occurs). -/
def Val.withTarget : Val → Val → Val
  | .vPtr e _, t => .vPtr e (some t)
  | v, _ => v

def VFields.fieldByName : VFields → String → Option Val
  | .nil, _ => none
  | .cons n v r, name => if n = name then some v else r.fieldByName name

def VFields.setField : VFields → String → Val → VFields
  | .nil, _, _ => .nil
  | .cons n v r, name, newV =>
      if n = name then .cons n newV r else .cons n v (r.setField name newV)

/-- `reflect.Value.FieldByName` restricted to struct values (the source only
calls it on values checked to be structs). -/
def Val.fieldByName : Val → String → Option Val
  | .vStruct _ fs, name => fs.fieldByName name
  | _, _ => none

/-- Functional update of a struct field (models mutation through `reflect`). -/
def Val.setField : Val → String → Val → Val
  | .vStruct n fs, name, newV => .vStruct n (fs.setField name newV)
  | v, _, _ => v

/-! ## Numeric conversions

Go's float conversions are modelled over `Rat` with an explicit
round-to-nearest-even rounding function at a given significand precision.
Exponent-range effects of IEEE 754 (overflow to infinity, subnormal
flushing) are outside the rationals reachable in this development; the
rounding function is exact for every value produced by the translated code
on well-formed Go values. -/

/-- Floor of the base-two logarithm, computed with an explicit fuel bound
(structural recursion, so the kernel can evaluate it on literals).  The fuel
4096 is far beyond any bit length reachable here. -/
def nlog2F : Nat → Nat → Nat
  | 0, _ => 0
  | fuel + 1, n => if n ≤ 1 then 0 else nlog2F fuel (n / 2) + 1

def nlog2 (n : Nat) : Nat := nlog2F 4096 n

/-- Whether `2 ^ k ≤ a / b` for naturals `a`, `b` with `b ≠ 0`, decided by
integer cross-multiplication. -/
def pow2LE (k : Int) (a b : Nat) : Bool :=
  if 0 ≤ k then 2 ^ k.toNat * b ≤ a else b ≤ 2 ^ (-k).toNat * a

/-- Floor of the base-two logarithm of `|q|`, for `q ≠ 0`, from the numerator
and denominator bit lengths with a one-step fixup. -/
def qlog2 (q : Rat) : Int :=
  let a := q.num.natAbs
  let b := q.den
  let l0 : Int := (nlog2 a : Int) - (nlog2 b : Int)
  if pow2LE l0 a b then l0 else l0 - 1

/-- Round the fraction `tn / td` (with `td > 0`) to the nearest integer, ties
to even. -/
def rneFrac (tn td : Int) : Int :=
  let fl : Int := tn.fdiv td
  let r : Int := tn.fmod td
  if 2 * r < td then fl
  else if td < 2 * r then fl + 1
  else if fl % 2 = 0 then fl else fl + 1

/-- Round a rational to a binary floating value with `p` significand bits
(round to nearest, ties to even; unbounded exponent).  All arithmetic is on
the numerator/denominator, and the result is rebuilt with `mkRat`, so the
kernel can evaluate it on literals. -/
def roundPrec (p : Nat) (q : Rat) : Rat :=
  if q.num = 0 then 0
  else
    let s : Int := qlog2 q - ((p : Int) - 1)
    -- q / 2^s as an integer fraction
    let tn : Int := if s ≤ 0 then q.num * 2 ^ (-s).toNat else q.num
    let td : Int := if s ≤ 0 then (q.den : Int) else (q.den : Int) * 2 ^ s.toNat
    let m : Int := rneFrac tn td
    -- m * 2^s
    if 0 ≤ s then mkRat (m * 2 ^ s.toNat) 1 else mkRat m (2 ^ (-s).toNat)

/-- Go's float-to-integer conversion: truncation toward zero. -/
def truncQ (q : Rat) : Int := q.num.tdiv (q.den : Int)

/-- The canonical embedding of an integer into `Rat`, via `mkRat`. -/
def qInt (n : Int) : Rat := mkRat n 1

/-- Two's-complement wrap of an integer to a signed width, as performed by
`reflect.Value.SetInt` when storing into a narrower field. -/
def wrapI (w : IntW) (n : Int) : Int :=
  (n + 2 ^ (w.bits - 1)) % (2 ^ w.bits : Int) - 2 ^ (w.bits - 1)

/-- Wrap of an integer to an unsigned width (`reflect.Value.SetUint`; the
out-of-range `uint64(float64)` conversion is implementation-defined in Go and
modelled as wrapping). -/
def wrapU (w : UintW) (n : Int) : Nat :=
  (n % (2 ^ w.bits : Int)).toNat

/-- The `switch field.Interface().(type)` of `DataBinder.Reset`: convert a
model field of any standard numeric type to `float64`; `none` answers the
`default` branch (unsupported type). -/
def toF64 : Val → Option Rat
  | .vFloat .f32 q => some q
  | .vFloat .f64 q => some q
  | .vInt _ n => some (roundPrec 53 (qInt n))
  | .vUint _ n => some (roundPrec 53 (qInt (n : Int)))
  | _ => none

/-- `reflect.Value.SetFloat` on a float field: a `float64` stores exactly, a
`float32` field rounds to 24 significand bits. -/
def setFloatVal (w : FloatW) (q : Rat) : Rat :=
  match w with
  | .f64 => q
  | .f32 => roundPrec 24 q

/-- Go `strings.Split(path, ".")`, implemented by structural recursion over
the character list (the separator is always the single character `'.'`). -/
def splitDotL : List Char → List (List Char)
  | [] => [[]]
  | c :: rest =>
      match splitDotL rest with
      | [] => [[]]
      | h :: t => if c = '.' then [] :: h :: t else (c :: h) :: t

def splitDot (s : String) : List String :=
  (splitDotL s.toList).map fun l => ⟨l⟩

/-! ## Association lists

Go maps are modelled as association lists with unique keys (uniqueness is
maintained by construction: `insertA` replaces an existing binding). -/

section AList
variable {α β : Type} [DecidableEq α]

def lookupA : List (α × β) → α → Option β
  | [], _ => none
  | (k, v) :: rest, a => if k = a then some v else lookupA rest a

def insertA : List (α × β) → α → β → List (α × β)
  | [], a, b => [(a, b)]
  | (k, v) :: rest, a, b =>
      if k = a then (a, b) :: rest else (k, v) :: insertA rest a b

def eraseA : List (α × β) → α → List (α × β)
  | [], _ => []
  | (k, v) :: rest, a => if k = a then rest else (k, v) :: eraseA rest a

end AList

/-! ## External collaborators

Modelled from the spec: the `Property` and `Widget` interfaces and the
`EventPublisher` are part of the walk repository but not of the given source
excerpt.  A `Property` exposes `Get`, `Set`, `Source`, `Validator` and a
change-notification stream with attach/detach-by-handle semantics; a `Widget`
exposes its declared properties; the publisher's `Publish` notifies all
subscribers (modelled by counting publications). -/

/-- Identity of a `Property` (identity is by reference in Go). -/
abbrev PropId := Nat

/-- Modelled from the spec: the state of one external `Property`.
`value` is what `Get()` returns (`none` is the Go nil interface); `source` is
`Source()` when it is a string (`none` models any non-string `Source()`, e.g.
nil); `validator` is the optional validation rule as a function of the
current value, returning the error message or `none`; `setErr` makes `Set`
fail with the given error (when `none`, `Set` stores the value and succeeds);
`listeners` holds the attached change handlers as (handle, widget id) pairs,
each standing for the closure that re-validates this property against that
widget. -/
structure PropState where
  source : Option String
  value : Option Val
  validator : Option (Option Val → Option String)
  setErr : Option String
  nextHandle : Nat
  listeners : List (Nat × Nat)

def defaultPropState : PropState :=
  { source := none, value := none, validator := none, setErr := none
    nextHandle := 0, listeners := [] }

/-- Modelled from the spec: a widget declares a set of named properties
(`name2Property`), given here as the list of property identities in map
iteration order. -/
structure Widget where
  wprops : List PropId

/-- The world of external collaborators, together with the observation logs
used to state the claims: which properties had `Get`/`Set` called, and the
`PresentError` invocations (error message or `none`, widget id or `none` for
a nil widget). -/
structure World where
  propStates : List (PropId × PropState)
  widgets : List (Nat × Widget)
  getLog : List PropId
  setLog : List PropId
  presentLog : List (Option String × Option Nat)

def World.getProp (w : World) (p : PropId) : PropState :=
  (lookupA w.propStates p).getD defaultPropState

def World.getWidget (w : World) (n : Nat) : Widget :=
  (lookupA w.widgets n).getD ⟨[]⟩

def World.modifyProp (w : World) (p : PropId) (f : PropState → PropState) : World :=
  { w with propStates := insertA w.propStates p (f (w.getProp p)) }

def World.logGet (w : World) (p : PropId) : World :=
  { w with getLog := w.getLog ++ [p] }

def World.logSet (w : World) (p : PropId) : World :=
  { w with setLog := w.setLog ++ [p] }

def World.logPresent (w : World) (e : Option String) (wid : Option Nat) : World :=
  { w with presentLog := w.presentLog ++ [(e, wid)] }

/-- `prop.Set(v)`: always logged as a call; on success the value is stored,
otherwise the property's error is returned. -/
def World.callSet (w : World) (p : PropId) (v : Option Val) : Option String × World :=
  let w' := w.logSet p
  match (w.getProp p).setErr with
  | some e => (some e, w')
  | none => (none, w'.modifyProp p fun ps => { ps with value := v })

/-! ## The `DataBinder` -/

/-- The Go error values produced by the translated code: the
`errValidationFailed` sentinel, `newError` binding errors, and errors
propagated from external collaborators (`Set`, validators, error-valued
`Get` results). -/
inductive GoErr where
  | validationFailed
  | binding (msg : String)
  | ext (msg : String)

/-- The `DataBinder` struct (databinder.go lines 22-31).  `dataSource` is the
`interface{}` field (`none` is the nil interface); the maps keyed by
`Property`/`Widget` references are association lists keyed by identities; the
ledger `widget2Property2Error` is keyed by `Option Nat` because a nil
`Widget` interface is a legal map key in Go; `publishCount` counts
`canSubmitChangedPublisher.Publish()` calls. -/
structure DataBinder where
  dataSource : Option Val
  boundWidgets : List Nat
  properties : List PropId
  property2Widget : List (PropId × Nat)
  property2ChangedHandle : List (PropId × Nat)
  widget2Property2Error : List (Option Nat × List (PropId × String))
  errorPresenter : Bool
  publishCount : Nat

/-- `NewDataBinder()`: `new(DataBinder)`, all fields zero. -/
def NewDataBinder : DataBinder :=
  { dataSource := none, boundWidgets := [], properties := []
    property2Widget := [], property2ChangedHandle := []
    widget2Property2Error := [], errorPresenter := false, publishCount := 0 }

/-- The full state a binder operation acts on: the binder and the world. -/
abbrev St := DataBinder × World

/-- `DataBinder.CanSubmit` (lines 128-130). -/
def DataBinder.CanSubmit (db : DataBinder) : Bool :=
  db.widget2Property2Error.isEmpty

/-- Tail of `validateProperty` (lines 111-117): notify the error presenter if
one is registered, then publish the eligibility change if `changed`. -/
def vpFinish (db : DataBinder) (w : World) (widget : Option Nat)
    (err : Option String) (changed : Bool) : St :=
  let w' := if db.errorPresenter then w.logPresent err widget else w
  let db' := if changed then { db with publishCount := db.publishCount + 1 } else db
  (db', w')

/-- `DataBinder.validateProperty` (lines 79-118). -/
def DataBinder.validateProperty (st : St) (prop : PropId) (widget : Option Nat) : St :=
  let ps := st.2.getProp prop
  match ps.validator with
  | none => st
  | some validate =>
      let prop2Err := lookupA st.1.widget2Property2Error widget
      let w1 := st.2.logGet prop
      match validate ps.value with
      | some e =>
          let changed := st.1.widget2Property2Error.isEmpty
          let inner := prop2Err.getD []
          let m' := insertA st.1.widget2Property2Error widget (insertA inner prop e)
          let db' := { st.1 with widget2Property2Error := m' }
          vpFinish db' w1 widget (some e) changed
      | none =>
          match prop2Err with
          | none => (st.1, w1)
          | some inner =>
              let inner' := eraseA inner prop
              if inner'.isEmpty then
                let m' := eraseA st.1.widget2Property2Error widget
                let db' := { st.1 with widget2Property2Error := m' }
                vpFinish db' w1 widget none m'.isEmpty
              else
                let m' := insertA st.1.widget2Property2Error widget inner'
                let db' := { st.1 with widget2Property2Error := m' }
                vpFinish db' w1 widget none false

/-- The detach loop of `SetBoundWidgets` (lines 50-52): for every recorded
(property, handle) pair, detach that handle from the property's change
stream. -/
def detachAll : World → List (PropId × Nat) → World
  | w, [] => w
  | w, (p, h) :: rest =>
      detachAll
        (w.modifyProp p fun ps =>
          { ps with listeners := ps.listeners.filter fun hw => hw.1 ≠ h })
        rest

/-- Registration of one accepted property (body of lines 69-74): append to
`properties`, record the owning widget, attach a change listener (whose
closure re-validates this (property, widget) pair) and record its handle. -/
def regStep (wid : Nat) (p : PropId) (st : St) : St :=
  let h := (st.2.getProp p).nextHandle
  let w' := st.2.modifyProp p fun q =>
    { q with nextHandle := q.nextHandle + 1, listeners := q.listeners ++ [(h, wid)] }
  let db' := { st.1 with
    properties := st.1.properties ++ [p],
    property2Widget := insertA st.1.property2Widget p wid,
    property2ChangedHandle := insertA st.1.property2ChangedHandle p h }
  (db', w')

/-- The inner registration loop of `SetBoundWidgets` (lines 63-75), over the
properties declared by one widget: a property is registered only when its
`Source()` is a string. -/
def regProps (wid : Nat) : St → List PropId → St
  | st, [] => st
  | st, p :: rest =>
      match (st.2.getProp p).source with
      | none => regProps wid st rest
      | some _ => regProps wid (regStep wid p st) rest

/-- The outer registration loop of `SetBoundWidgets` (lines 60-76). -/
def regWidgets : St → List Nat → St
  | st, [] => st
  | st, wid :: rest => regWidgets (regProps wid st (st.2.getWidget wid).wprops) rest

/-- The first half of `SetBoundWidgets` (lines 50-58): detach all listeners,
store the new widget list, and remake the three maps.  Note that the source
does not clear `properties`; this is mirrored faithfully. -/
def sbwReset (st : St) (ws : List Nat) : St :=
  ({ st.1 with
      boundWidgets := ws,
      property2Widget := [],
      property2ChangedHandle := [],
      widget2Property2Error := [] },
   detachAll st.2 st.1.property2ChangedHandle)

/-- `DataBinder.SetBoundWidgets` (lines 49-77). -/
def DataBinder.SetBoundWidgets (st : St) (ws : List Nat) : St :=
  regWidgets (sbwReset st ws) ws

/-- Modelled from the spec: firing a property's change notification invokes
every attached listener, i.e. re-validates the (property, widget) pairs the
listeners were attached for, in attach order. -/
def fireChangedL (prop : PropId) : St → List (Nat × Nat) → St
  | st, [] => st
  | st, (_, wid) :: rest =>
      fireChangedL prop (DataBinder.validateProperty st prop (some wid)) rest

def fireChanged (st : St) (prop : PropId) : St :=
  fireChangedL prop st (st.2.getProp prop).listeners

/-- `DataBinder.SetDataSource` (lines 41-43). -/
def DataBinder.SetDataSource (st : St) (ds : Option Val) : St :=
  ({ st.1 with dataSource := ds }, st.2)

/-- `DataBinder.SetErrorPresenter` (lines 124-126), as presence. -/
def DataBinder.SetErrorPresenter (st : St) (ep : Bool) : St :=
  ({ st.1 with errorPresenter := ep }, st.2)

/-! ## `forEach` (lines 237-288): dotted-path traversal -/

/-- Overall outcome of `forEach`/`Reset`/`Submit`: a normal return with a nil
error, a returned Go error, or a runtime panic. -/
inductive Out where
  | ok
  | err (e : GoErr)
  | panicked (msg : String)

/-- Outcome of the per-property action `f(prop, field)`: on success it yields
the (possibly written) field value and the updated state. -/
inductive ARes where
  | ok (newField : Val) (st : St)
  | err (e : GoErr) (st : St)
  | panicked (msg : String) (st : St)

/-- Outcome of walking one property's path segments inside one pointer: on
success it yields the (possibly mutated) pointee of that pointer. -/
inductive WRes where
  | ok (newTarget : Val) (st : St)
  | err (e : GoErr) (st : St)
  | panicked (msg : String) (st : St)

/-- The inner loop of `forEach` (lines 259-284) for one property.  `p` is the
current pointer and `s` its pointee (`reflect.Indirect(p)`), exactly as in
the source; mutation by the action is threaded back as the new pointee.

The source's guard at line 270 tests `p.Type().Kind()` — the kind of the
current *pointer*, which is always `Ptr` — rather than the kind of `field`;
this is mirrored faithfully, as is the consequence: descending into a
non-pointer field reaches `p.IsNil()` (line 276) with a non-pointer `p`,
which panics in `reflect`. -/
def walkSegs (f : PropId → Val → St → ARes) (prop : PropId) (st : St)
    (p : Val) (s : Val) : List String → WRes
  | [] => .ok s st
  | name :: rest =>
      match s.fieldByName name with
      | none =>
          .err (.binding ("Struct '" ++ s.tyName ++ "' has no field '" ++ name ++ "'.")) st
      | some field =>
          if rest.isEmpty then
            match f prop field st with
            | .err e st' => .err e st'
            | .panicked m st' => .panicked m st'
            | .ok field' st' =>
                let s' := s.setField name field'
                if ¬ p.isNilable then
                  .panicked ("reflect: call of reflect.Value.IsNil on " ++ p.kindName ++ " Value") st'
                else if p.isNilPtr then .err (.binding "Pointer must not be nil.") st'
                else if ¬ s'.isStruct then .err (.binding "Pointer must point to a struct.") st'
                else .ok s' st'
          else
            if p.kindIsPtr then
              let p' := field
              if ¬ p'.isNilable then
                .panicked ("reflect: call of reflect.Value.IsNil on " ++ p'.kindName ++ " Value") st
              else if p'.isNilPtr then .err (.binding "Pointer must not be nil.") st
              else
                let s2 := p'.indirect
                if ¬ s2.isStruct then .err (.binding "Pointer must point to a struct.") st
                else
                  match walkSegs f prop st p' s2 rest with
                  | .ok t st' => .ok (s.setField name (p'.withTarget t)) st'
                  | .err e st' => .err e st'
                  | .panicked m st' => .panicked m st'
            else .err (.binding "Field must be a pointer to a struct.") st

/-- The outer loop of `forEach` (lines 252-285): process each registered
property in order against the (possibly already mutated) data source.  The
unchecked `prop.Source().(string)` assertion of line 253 panics on a
non-string source.  After each successful walk, the mutated pointee is
visible through `dataSource` (in Go the mutation went through the pointer). -/
def forEachProps (f : PropId → Val → St → ARes) : St → Val → List PropId → Out × St
  | st, _, [] => (.ok, st)
  | st, root, prop :: rest =>
      match (st.2.getProp prop).source with
      | none => (.panicked "interface conversion: interface {} is nil, not string", st)
      | some path =>
          match walkSegs f prop st root root.indirect (splitDot path) with
          | .ok t st' =>
              let root' := root.withTarget t
              forEachProps f ({ st'.1 with dataSource := some root' }, st'.2) root' rest
          | .err e st' => (.err e, st')
          | .panicked m st' => (.panicked m, st')

/-- `DataBinder.forEach` (lines 237-288).  A nil `interface{}` data source
panics in `reflect.Value.Type`; a typed nil pointer returns nil
immediately. -/
def DataBinder.forEach (f : PropId → Val → St → ARes) (st : St) : Out × St :=
  match st.1.dataSource with
  | none => (.panicked "reflect: call of reflect.Value.Type on zero Value", st)
  | some root =>
      if ¬ root.kindIsPtr then (.err (.binding "DataSource must be a pointer to a struct."), st)
      else if root.isNilPtr then (.ok, st)
      else if ¬ root.indirect.isStruct then
        (.err (.binding "DataSource must be a pointer to a struct."), st)
      else forEachProps f st root st.1.properties

/-- The action of `DataBinder.Reset` (lines 137-194): pull the field value
into the property, converting any standard numeric field to `float64` when
the property's current value is a `float64`, then re-validate that property
against its owning widget.  The field itself is never written. -/
def resetAction (prop : PropId) (field : Val) (st : St) : ARes :=
  let ps := st.2.getProp prop
  let w1 := st.2.logGet prop
  match ps.value with
  | some (.vFloat .f64 _) =>
      match toF64 field with
      | none =>
          .err (.binding ("Field '" ++ ps.source.getD "" ++ "': Can't convert "
            ++ field.tyName ++ " to float64.")) (st.1, w1)
      | some f64 =>
          match w1.callSet prop (some (.vFloat .f64 f64)) with
          | (some e, w2) => .err (.ext e) (st.1, w2)
          | (none, w2) =>
              .ok field (DataBinder.validateProperty (st.1, w2) prop
                (lookupA st.1.property2Widget prop))
  | _ =>
      match w1.callSet prop (some field) with
      | (some e, w2) => .err (.ext e) (st.1, w2)
      | (none, w2) =>
          .ok field (DataBinder.validateProperty (st.1, w2) prop
            (lookupA st.1.property2Widget prop))

/-- `DataBinder.Reset` (lines 136-195). -/
def DataBinder.Reset (st : St) : Out × St :=
  DataBinder.forEach resetAction st

/-- The action of `DataBinder.Submit` (lines 202-234): push the property's
current value into the model field.  A nil value is skipped; an error-typed
value aborts; a `float64` value is converted by the field's kind (truncation
toward zero for integer kinds); any other value requires an identical field
type (`reflect.Value.Set` panics on an unassignable value). -/
def submitAction (prop : PropId) (field : Val) (st : St) : ARes :=
  let ps := st.2.getProp prop
  let st1 : St := (st.1, st.2.logGet prop)
  match ps.value with
  | none => .ok field st1
  | some v =>
      match v with
      | .vErrVal m => .err (.ext m) st1
      | .vFloat .f64 q =>
          match field with
          | .vFloat w _ => .ok (.vFloat w (setFloatVal w q)) st1
          | .vInt w _ => .ok (.vInt w (wrapI w (truncQ q))) st1
          | .vUint w _ => .ok (.vUint w (wrapU w (truncQ q))) st1
          | _ =>
              .err (.binding ("Field '" ++ ps.source.getD "" ++ "': Can't convert float64 to "
                ++ field.tyName ++ ".")) st1
      | _ =>
          if Ty.beq v.typeOf field.typeOf then .ok v st1
          else
            .panicked ("reflect.Set: value of type " ++ v.tyName
              ++ " is not assignable to type " ++ field.tyName) st1

/-- `DataBinder.Submit` (lines 197-235): refuse with the dedicated
`errValidationFailed` sentinel unless the ledger is empty, before any
traversal. -/
def DataBinder.Submit (st : St) : Out × St :=
  if ¬ st.1.CanSubmit then (.err .validationFailed, st)
  else DataBinder.forEach submitAction st

/-! ## Specification-side helper definitions for the round-trip proofs -/

/-- The carried state of an action result. -/
def ARes.st : ARes → St
  | .ok _ s => s
  | .err _ s => s
  | .panicked _ s => s

/-- The carried state of a walk result. -/
def WRes.st : WRes → St
  | .ok _ s => s
  | .err _ s => s
  | .panicked _ s => s

mutual
/-- Well-formedness of a model value: machine integers are in range and
exactly representable in `float64`, `float32` payloads are 24-bit
representable, and no field is error-valued.  (Range and representability
are what Go guarantees for values that actually fit in the declared field
types; the `float64` representability of integers is the amendment forced
by the drift counterexample.) -/
def Val.reprB : Val → Bool
  | .vInt w n =>
      decide (-(2 ^ (w.bits - 1)) ≤ n) && decide (n < 2 ^ (w.bits - 1))
        && decide (roundPrec 53 (qInt n) = qInt n)
  | .vUint w n =>
      decide (n < 2 ^ w.bits) && decide (roundPrec 53 (qInt (n : Int)) = qInt (n : Int))
  | .vFloat .f32 q => decide (roundPrec 24 q = q)
  | .vFloat .f64 _ => true
  | .vString _ => true
  | .vErrVal _ => false
  | .vStruct _ fs => fs.reprB
  | .vPtr _ none => true
  | .vPtr _ (some v) => v.reprB

def VFields.reprB : VFields → Bool
  | .nil => true
  | .cons _ v r => v.reprB && r.reprB
end

/-- The field value a path resolves to, mirroring the checks of the walk:
`none` when the walk would not reach the final field. -/
def resolveIn : Val → List String → Option Val
  | _, [] => none
  | s, name :: rest =>
      match s.fieldByName name with
      | none => none
      | some field =>
          if rest.isEmpty then some field
          else
            match field with
            | .vPtr _e (some t) => if t.isStruct then resolveIn t rest else none
            | _ => none

/-- Writing a value into the field a path resolves to. -/
def writeIn : Val → List String → Val → Val
  | s, [], _ => s
  | s, name :: rest, r =>
      if rest.isEmpty then s.setField name r
      else
        match s.fieldByName name with
        | some (.vPtr e (some t)) => s.setField name (.vPtr e (some (writeIn t rest r)))
        | _ => s

/-- The relation between a property's post-`Reset` value and its model
field: either the field was numeric and the property now reports its
`float64` image, or the property holds the field value itself. -/
def goodVal (v : Option Val) (fv : Val) : Prop :=
  (∃ f, toF64 fv = some f ∧ v = some (.vFloat .f64 f)) ∨ v = some fv

/-- A property is in post-`Reset` shape with respect to the model root. -/
def goodAt (root : Val) (w : World) (p : PropId) : Prop :=
  ∃ path fv, (w.getProp p).source = some path
    ∧ resolveIn root.indirect (splitDot path) = some fv
    ∧ goodVal ((w.getProp p).value) fv

/-- Ledger lookup: the recorded validation error of a (widget, property)
pair. -/
def lookup2 (db : DataBinder) (w : Option Nat) (p : PropId) : Option String :=
  match lookupA db.widget2Property2Error w with
  | none => none
  | some inner => lookupA inner p

/-- Unique-keys well-formedness of the ledger (holds for every reachable
binder state: the maps are built by `insertA`/`eraseA` from empty). -/
def ledgerWF (db : DataBinder) : Prop :=
  (db.widget2Property2Error.map Prod.fst).Nodup
  ∧ ∀ w inner, lookupA db.widget2Property2Error w = some inner
      → (inner.map Prod.fst).Nodup

/-! ## Concrete fixtures used by the closed theorems -/

/-- A property state with a string source, a `float64`-reporting value, and
no validator. -/
def mkF64Prop (src : String) : PropState :=
  { source := some src, value := some (.vFloat .f64 0)
    validator := none, setErr := none, nextHandle := 0, listeners := [] }

/-- World: widget 100 declares property 0 bound to path "N", reporting a
generic `float64` value. -/
def fxWorldN : World :=
  { propStates := [(0, mkF64Prop "N")], widgets := [(100, ⟨[0]⟩)]
    getLog := [], setLog := [], presentLog := [] }

/-- A one-field model `*Data{ N int64 = n }`. -/
def fxModelI64 (n : Int) : Val :=
  .vPtr (.tStruct "Data" (.cons "N" (.tInt .i64) .nil))
    (some (.vStruct "Data" (.cons "N" (.vInt .i64 n) .nil)))

/-- A binder with one registered property 0 owned by widget 100 and the given
data source. -/
def fxBinder (ds : Option Val) : DataBinder :=
  { NewDataBinder with dataSource := ds, properties := [0], property2Widget := [(0, 100)] }

/-- World: property 0 bound to "Address.City". -/
def fxWorldAddr : World :=
  { propStates := [(0, { source := some "Address.City", value := some (.vString "x")
                         validator := none, setErr := none, nextHandle := 0, listeners := [] })]
    widgets := [(100, ⟨[0]⟩)], getLog := [], setLog := [], presentLog := [] }

/-- Model `*Data{ Address *Address = nil }`. -/
def fxModelAddrNil : Val :=
  .vPtr (.tStruct "Data" .nil)
    (some (.vStruct "Data" (.cons "Address" (.vPtr (.tStruct "Address" .nil) none) .nil)))

/-- Model `*Data{ Address Address }` where `Address` is a struct held by
value (not a pointer). -/
def fxModelAddrStruct : Val :=
  .vPtr (.tStruct "Data" .nil)
    (some (.vStruct "Data" (.cons "Address"
      (.vStruct "Address" (.cons "City" (.vString "B") .nil)) .nil)))

/-- World: property 0 bound to "N" with an always-failing validator. -/
def fxWorldFailVal : World :=
  { propStates := [(0, { source := some "N", value := some (.vFloat .f64 0)
                         validator := some fun _ => some "bad", setErr := none
                         nextHandle := 0, listeners := [] })]
    widgets := [(100, ⟨[0]⟩)], getLog := [], setLog := [], presentLog := [] }

/-- World: property 0 bound to "N" with an always-passing validator. -/
def fxWorldPassVal : World :=
  { propStates := [(0, { source := some "N", value := some (.vFloat .f64 0)
                         validator := some fun _ => none, setErr := none
                         nextHandle := 0, listeners := [] })]
    widgets := [(100, ⟨[0]⟩)], getLog := [], setLog := [], presentLog := [] }

/-- World: two widgets 100 and 101, each declaring one bindable property. -/
def fxWorldTwoSessions : World :=
  { propStates :=
      [(0, { source := some "A", value := none, validator := none, setErr := none
             nextHandle := 0, listeners := [] }),
       (1, { source := some "B", value := none, validator := none, setErr := none
             nextHandle := 0, listeners := [] })]
    widgets := [(100, ⟨[0]⟩), (101, ⟨[1]⟩)], getLog := [], setLog := [], presentLog := [] }

/-- World: property 0 whose `Source()` is the empty string. -/
def fxWorldEmptySource : World :=
  { propStates := [(0, { source := some "", value := none, validator := none
                         setErr := none, nextHandle := 0, listeners := [] })]
    widgets := [(100, ⟨[0]⟩)], getLog := [], setLog := [], presentLog := [] }

/-- Model `*Data{ N string }` (a non-numeric field under path "N"). -/
def fxModelStr : Val :=
  .vPtr (.tStruct "Data" .nil) (some (.vStruct "Data" (.cons "N" (.vString "hi") .nil)))

/-- The list of properties `SetBoundWidgets` registers for the given widget
ids: for each widget in order, its declared properties that have a string
`Source()`. -/
def regList (w : World) : List Nat → List PropId
  | [] => []
  | wid :: rest =>
      ((w.getWidget wid).wprops.filter fun p => (w.getProp p).source.isSome) ++ regList w rest

/-- A binder whose ledger holds one outstanding validation error. -/
def fxBinderInvalid : DataBinder :=
  { fxBinder (some (fxModelI64 5)) with widget2Property2Error := [(some 100, [(0, "bad")])] }

/-- A binder with a registered error presenter and empty ledger. -/
def fxPresenterBinder : DataBinder :=
  { NewDataBinder with errorPresenter := true }

/-- Session 1: bind widget 100. -/
def fxSession1 : St := DataBinder.SetBoundWidgets (NewDataBinder, fxWorldTwoSessions) [100]

/-- Session 2: re-bind with widget 101. -/
def fxSession2 : St := DataBinder.SetBoundWidgets fxSession1 [101]

/-- Register the failing-validator property, then run its validation once
(ledger becomes non-empty, one publication). -/
def fxC1a : St := DataBinder.SetBoundWidgets (NewDataBinder, fxWorldFailVal) [100]

def fxC1b : St := DataBinder.validateProperty fxC1a 0 (some 100)

/-- Re-bind with no widgets: the ledger is emptied. -/
def fxC1c : St := DataBinder.SetBoundWidgets fxC1b []

/-- The drift scenario: an `int64` field holding `2^53 + 1`, bound to a
`float64`-reporting property. -/
def fxDrift0 : St := (fxBinder (some (fxModelI64 9007199254740993)), fxWorldN)

def fxDrift1 : St := (DataBinder.Reset fxDrift0).2

def fxDrift2 : St := (DataBinder.Submit fxDrift1).2

/-! # Helper lemmas -/

section AListLemmas
variable {α β : Type} [DecidableEq α]

theorem insertA_ne_nil (l : List (α × β)) (a : α) (b : β) : insertA l a b ≠ [] := by
  cases l with
  | nil => simp [insertA]
  | cons kv rest => obtain ⟨k, v⟩ := kv; by_cases h : k = a <;> simp [insertA, h]

theorem lookupA_isSome_ne_nil {l : List (α × β)} {a : α} {b : β}
    (h : lookupA l a = some b) : l ≠ [] := by
  intro he; subst he; simp [lookupA] at h

theorem lookupA_insertA_ne {l : List (α × β)} {a a' : α} (b : β) (h : a' ≠ a) :
    lookupA (insertA l a' b) a = lookupA l a := by
  induction l with
  | nil => simp [insertA, lookupA, h]
  | cons kv rest ih =>
      obtain ⟨k, v⟩ := kv
      by_cases hk : k = a' <;> by_cases hka : k = a <;>
        simp_all [insertA, lookupA]

theorem lookupA_insertA_self (l : List (α × β)) (a : α) (b : β) :
    lookupA (insertA l a b) a = some b := by
  induction l with
  | nil => simp [insertA, lookupA]
  | cons kv rest ih =>
      obtain ⟨k, v⟩ := kv
      by_cases hk : k = a <;> simp [insertA, lookupA, hk, ih]

theorem lookupA_eraseA_ne {l : List (α × β)} {a a' : α} (h : a' ≠ a) :
    lookupA (eraseA l a') a = lookupA l a := by
  induction l with
  | nil => simp [eraseA]
  | cons kv rest ih =>
      obtain ⟨k, v⟩ := kv
      by_cases hk : k = a' <;> by_cases hka : k = a <;>
        simp_all [eraseA, lookupA]

theorem eraseA_eq_nil_lookup_ne {l : List (α × β)} {a a' : α}
    (hne : eraseA l a' = []) (h : a ≠ a') : lookupA l a = none := by
  cases l with
  | nil => simp [lookupA]
  | cons kv rest =>
      obtain ⟨k, v⟩ := kv
      by_cases hk : k = a'
      · rw [eraseA, if_pos hk] at hne
        subst hne
        rw [lookupA, if_neg (by rw [hk]; exact fun hh => h hh.symm), lookupA]
      · rw [eraseA, if_neg hk] at hne
        exact absurd hne (List.cons_ne_nil _ _)

theorem lookupA_eq_none_of_not_mem {l : List (α × β)} {a : α}
    (h : a ∉ l.map Prod.fst) : lookupA l a = none := by
  induction l with
  | nil => rfl
  | cons kv rest ih =>
      obtain ⟨k, v⟩ := kv
      simp only [List.map_cons, List.mem_cons] at h
      push_neg at h
      rw [lookupA, if_neg (fun hh => h.1 hh.symm)]
      exact ih h.2

theorem mem_keys_insertA {l : List (α × β)} {a x : α} {b : β}
    (h : x ∈ (insertA l a b).map Prod.fst) : x ∈ l.map Prod.fst ∨ x = a := by
  induction l with
  | nil => simpa [insertA] using h
  | cons kv rest ih =>
      obtain ⟨k, v⟩ := kv
      by_cases hk : k = a
      · rw [insertA, if_pos hk] at h
        simp only [List.map_cons, List.mem_cons] at h ⊢
        rcases h with h | h
        · exact Or.inr h
        · exact Or.inl (Or.inr h)
      · rw [insertA, if_neg hk] at h
        simp only [List.map_cons, List.mem_cons] at h ⊢
        rcases h with h | h
        · exact Or.inl (Or.inl h)
        · rcases ih h with h2 | h2
          · exact Or.inl (Or.inr h2)
          · exact Or.inr h2

theorem mem_keys_eraseA {l : List (α × β)} {a x : α}
    (h : x ∈ (eraseA l a).map Prod.fst) : x ∈ l.map Prod.fst := by
  induction l with
  | nil => simp [eraseA] at h
  | cons kv rest ih =>
      obtain ⟨k, v⟩ := kv
      by_cases hk : k = a
      · rw [eraseA, if_pos hk] at h
        simp only [List.map_cons, List.mem_cons]
        exact Or.inr h
      · rw [eraseA, if_neg hk] at h
        simp only [List.map_cons, List.mem_cons] at h ⊢
        rcases h with h | h
        · exact Or.inl h
        · exact Or.inr (ih h)

theorem nodup_keys_insertA {l : List (α × β)} {a : α} {b : β}
    (h : (l.map Prod.fst).Nodup) : ((insertA l a b).map Prod.fst).Nodup := by
  induction l with
  | nil => simp [insertA]
  | cons kv rest ih =>
      obtain ⟨k, v⟩ := kv
      simp only [List.map_cons, List.nodup_cons] at h
      by_cases hk : k = a
      · rw [insertA, if_pos hk]
        simp only [List.map_cons, List.nodup_cons]
        exact ⟨by rw [← hk]; exact h.1, h.2⟩
      · rw [insertA, if_neg hk]
        simp only [List.map_cons, List.nodup_cons]
        refine ⟨?_, ih h.2⟩
        intro hmem
        rcases mem_keys_insertA hmem with h2 | h2
        · exact h.1 h2
        · exact hk h2

theorem nodup_keys_eraseA {l : List (α × β)} {a : α}
    (h : (l.map Prod.fst).Nodup) : ((eraseA l a).map Prod.fst).Nodup := by
  induction l with
  | nil => simp [eraseA]
  | cons kv rest ih =>
      obtain ⟨k, v⟩ := kv
      simp only [List.map_cons, List.nodup_cons] at h
      by_cases hk : k = a
      · rw [eraseA, if_pos hk]
        exact h.2
      · rw [eraseA, if_neg hk]
        simp only [List.map_cons, List.nodup_cons]
        exact ⟨fun hmem => h.1 (mem_keys_eraseA hmem), ih h.2⟩

theorem lookupA_eraseA_self {l : List (α × β)} {a : α}
    (h : (l.map Prod.fst).Nodup) : lookupA (eraseA l a) a = none := by
  induction l with
  | nil => rfl
  | cons kv rest ih =>
      obtain ⟨k, v⟩ := kv
      simp only [List.map_cons, List.nodup_cons] at h
      by_cases hk : k = a
      · rw [eraseA, if_pos hk]
        subst hk
        exact lookupA_eq_none_of_not_mem h.1
      · rw [eraseA, if_neg hk, lookupA, if_neg hk]
        exact ih h.2

end AListLemmas

theorem splitDotL_ne_nil (cs : List Char) : splitDotL cs ≠ [] := by
  cases cs with
  | nil => simp [splitDotL]
  | cons c rest =>
      simp only [splitDotL]
      cases splitDotL rest with
      | nil => simp
      | cons h t => by_cases hc : c = '.' <;> simp [hc]

theorem splitDot_ne_nil (s : String) : splitDot s ≠ [] := by
  simp [splitDot, splitDotL_ne_nil]

theorem isEmpty_insertA {α β : Type} [DecidableEq α] (l : List (α × β)) (a : α) (b : β) :
    (insertA l a b).isEmpty = false := by
  have hne := insertA_ne_nil l a b
  cases h : insertA l a b with
  | nil => exact absurd h hne
  | cons x xs => rfl

theorem isEmpty_of_lookupA {α β : Type} [DecidableEq α] {l : List (α × β)} {a : α} {b : β}
    (h : lookupA l a = some b) : l.isEmpty = false := by
  have hne := lookupA_isSome_ne_nil h
  cases l with
  | nil => exact absurd rfl hne
  | cons x xs => rfl

theorem isEmpty_false_of_ne_nil {α : Type} {l : List α} (h : l ≠ []) : l.isEmpty = false := by
  cases l with
  | nil => exact absurd rfl h
  | cons x xs => rfl

theorem callSet_none {w : World} {p : PropId} (h : (w.getProp p).setErr = none)
    (v : Option Val) :
    w.callSet p v = (none, (w.logSet p).modifyProp p fun ps => { ps with value := v }) := by
  unfold World.callSet
  rw [h]

theorem qInt_num (n : Int) : (qInt n).num = n := by
  simp [qInt, Rat.mkRat_def, Rat.normalize_eq]

theorem qInt_den (n : Int) : (qInt n).den = 1 := by
  simp [qInt, Rat.mkRat_def, Rat.normalize_eq]

theorem truncQ_qInt (n : Int) : truncQ (qInt n) = n := by
  rw [truncQ, qInt_num, qInt_den]
  exact Int.tdiv_one n

theorem wrapI_eq_self (w : IntW) (n : Int)
    (h1 : -(2 ^ (w.bits - 1)) ≤ n) (h2 : n < 2 ^ (w.bits - 1)) : wrapI w n = n := by
  have hb : w.bits - 1 + 1 = w.bits := by cases w <;> rfl
  have h2b : (2 ^ w.bits : Int) = 2 ^ (w.bits - 1) * 2 := by
    rw [← pow_succ, hb]
  unfold wrapI
  rw [Int.emod_eq_of_lt (by omega) (by omega)]
  omega

theorem wrapU_eq_self (w : UintW) (n : Nat) (h : n < 2 ^ w.bits) :
    wrapU w (n : Int) = n := by
  unfold wrapU
  rw [Int.emod_eq_of_lt (by positivity) (by exact_mod_cast h)]
  simp

mutual
theorem Ty.beq_refl : (t : Ty) → Ty.beq t t = true
  | .tInt w => by simp [Ty.beq]
  | .tUint w => by simp [Ty.beq]
  | .tFloat w => by simp [Ty.beq]
  | .tString => rfl
  | .tErr => rfl
  | .tStruct n fs => by simp [Ty.beq, TFields.beq_reflF fs]
  | .tPtr e => by simp [Ty.beq, Ty.beq_refl e]

theorem TFields.beq_reflF : (fs : TFields) → TFields.beq fs fs = true
  | .nil => rfl
  | .cons n t r => by simp [TFields.beq, Ty.beq_refl t, TFields.beq_reflF r]
end

theorem VFields.setField_selfF : (fs : VFields) → ∀ name v,
    fs.fieldByName name = some v → fs.setField name v = fs
  | .nil => by intro name v h; cases h
  | .cons n x r => by
      intro name v h
      by_cases hn : n = name
      · rw [VFields.fieldByName, if_pos hn] at h
        rw [VFields.setField, if_pos hn]
        cases h
        rfl
      · rw [VFields.fieldByName, if_neg hn] at h
        rw [VFields.setField, if_neg hn, VFields.setField_selfF r name v h]

theorem Val.setField_self (s : Val) (name : String) (v : Val)
    (h : s.fieldByName name = some v) : s.setField name v = s := by
  cases s with
  | vStruct n fs =>
      rw [Val.fieldByName] at h
      rw [Val.setField, VFields.setField_selfF fs name v h]
  | vInt w n => cases h
  | vUint w n => cases h
  | vFloat w q => cases h
  | vString x => cases h
  | vErrVal m => cases h
  | vPtr e t => cases h

theorem VFields.fieldByName_reprBF : (fs : VFields) → ∀ name (v : Val),
    fs.reprB = true → fs.fieldByName name = some v → v.reprB = true
  | .nil => by intro name v _ h; cases h
  | .cons n x r => by
      intro name v hwf h
      rw [VFields.reprB, Bool.and_eq_true] at hwf
      by_cases hn : n = name
      · rw [VFields.fieldByName, if_pos hn] at h
        cases h
        exact hwf.1
      · rw [VFields.fieldByName, if_neg hn] at h
        exact VFields.fieldByName_reprBF r name v hwf.2 h

theorem Val.fieldByName_reprB {s : Val} {name : String} {v : Val}
    (hwf : s.reprB = true) (h : s.fieldByName name = some v) : v.reprB = true := by
  cases s with
  | vStruct n fs => exact VFields.fieldByName_reprBF fs name v hwf h
  | vInt w n => cases h
  | vUint w n => cases h
  | vFloat w q => cases h
  | vString x => cases h
  | vErrVal m => cases h
  | vPtr e t => cases h

theorem resolveIn_reprB {s : Val} {names : List String} {fv : Val}
    (hwf : s.reprB = true) (h : resolveIn s names = some fv) : fv.reprB = true := by
  induction names generalizing s with
  | nil => cases h
  | cons name rest ih =>
      cases hfb : s.fieldByName name with
      | none => simp [resolveIn, hfb] at h
      | some field =>
          have hfr : field.reprB = true := Val.fieldByName_reprB hwf hfb
          cases hre : rest.isEmpty with
          | true =>
              simp [resolveIn, hfb, hre] at h
              rw [← h]
              exact hfr
          | false =>
              simp only [resolveIn, hfb, hre, Bool.false_eq_true, if_false] at h
              cases field with
              | vPtr e t =>
                  cases t with
                  | none => simp at h
                  | some inner =>
                      cases hst : inner.isStruct with
                      | true =>
                          simp [hst] at h
                          exact ih (by simpa [Val.reprB] using hfr) h
                      | false => simp [hst] at h
              | vInt w n => simp at h
              | vUint w n => simp at h
              | vFloat w q => simp at h
              | vString x => simp at h
              | vErrVal m => simp at h
              | vStruct n2 fs => simp at h

theorem writeIn_self {s : Val} {names : List String} {fv : Val}
    (h : resolveIn s names = some fv) : writeIn s names fv = s := by
  induction names generalizing s with
  | nil => cases h
  | cons name rest ih =>
      cases hfb : s.fieldByName name with
      | none => simp [resolveIn, hfb] at h
      | some field =>
          cases hre : rest.isEmpty with
          | true =>
              simp [resolveIn, hfb, hre] at h
              subst h
              simp [writeIn, hre]
              exact Val.setField_self s name field hfb
          | false =>
              simp only [resolveIn, hfb, hre, Bool.false_eq_true, if_false] at h
              simp only [writeIn, hre, Bool.false_eq_true, if_false, hfb]
              cases field with
              | vPtr e t =>
                  cases t with
                  | none => simp at h
                  | some inner =>
                      cases hst : inner.isStruct with
                      | true =>
                          simp [hst] at h
                          show s.setField name (.vPtr e (some (writeIn inner rest fv))) = s
                          rw [ih h]
                          exact Val.setField_self s name (.vPtr e (some inner)) hfb
                      | false => simp [hst] at h
              | vInt w n => simp at h
              | vUint w n => simp at h
              | vFloat w q => simp at h
              | vString x => simp at h
              | vErrVal m => simp at h
              | vStruct n2 fs => simp at h

theorem vpFinish_eq (db : DataBinder) (w : World) (wid : Option Nat)
    (e : Option String) (c : Bool) :
    vpFinish db w wid e c =
      ({ db with publishCount := db.publishCount + (if c then 1 else 0) },
       if db.errorPresenter then w.logPresent e wid else w) := by
  cases c <;> rfl

/-- `validateProperty` only touches the ledger, the publish count, and the
`Get`/presenter logs: every other component of the state is preserved. -/
theorem vp_frame (st : St) (prop : PropId) (widget : Option Nat) :
    (DataBinder.validateProperty st prop widget).1.dataSource = st.1.dataSource
  ∧ (DataBinder.validateProperty st prop widget).1.properties = st.1.properties
  ∧ (DataBinder.validateProperty st prop widget).1.property2Widget = st.1.property2Widget
  ∧ (DataBinder.validateProperty st prop widget).1.property2ChangedHandle
      = st.1.property2ChangedHandle
  ∧ (DataBinder.validateProperty st prop widget).1.errorPresenter = st.1.errorPresenter
  ∧ (DataBinder.validateProperty st prop widget).2.propStates = st.2.propStates
  ∧ (DataBinder.validateProperty st prop widget).2.widgets = st.2.widgets
  ∧ (DataBinder.validateProperty st prop widget).2.setLog = st.2.setLog := by
  unfold DataBinder.validateProperty
  cases hv : (st.2.getProp prop).validator with
  | none => simp [hv]
  | some validate =>
      cases he : validate (st.2.getProp prop).value with
      | some e =>
          simp only [hv, he, vpFinish_eq]
          split_ifs <;> simp [World.logGet, World.logPresent]
      | none =>
          cases hpe : lookupA st.1.widget2Property2Error widget with
          | none => simp [hv, he, hpe, World.logGet]
          | some inner =>
              simp only [hv, he, hpe, vpFinish_eq]
              split_ifs <;> simp [World.logGet, World.logPresent]

/-- The property-modification performed by registration and detachment keeps
every property's `source`, `value`, `validator` and `setErr` intact. -/
def touchOnly (f : PropState → PropState) : Prop :=
  ∀ ps, (f ps).source = ps.source ∧ (f ps).value = ps.value
    ∧ (f ps).validator = ps.validator ∧ (f ps).setErr = ps.setErr

theorem getProp_modifyProp (w : World) (p q : PropId) (f : PropState → PropState)
    (hf : touchOnly f) :
    ((w.modifyProp p f).getProp q).source = (w.getProp q).source
  ∧ ((w.modifyProp p f).getProp q).value = (w.getProp q).value
  ∧ ((w.modifyProp p f).getProp q).validator = (w.getProp q).validator
  ∧ ((w.modifyProp p f).getProp q).setErr = (w.getProp q).setErr := by
  unfold World.modifyProp World.getProp
  by_cases hq : q = p
  · subst hq
    rw [lookupA_insertA_self]
    exact (hf _)
  · rw [lookupA_insertA_ne _ (fun hh => hq hh.symm)]
    exact ⟨rfl, rfl, rfl, rfl⟩

theorem getWidget_modifyProp (w : World) (p : PropId) (f : PropState → PropState) (n : Nat) :
    ((w.modifyProp p f).getWidget n) = w.getWidget n := rfl

theorem detachAll_sources (l : List (PropId × Nat)) (w : World) (q : PropId) :
    ((detachAll w l).getProp q).source = (w.getProp q).source
  ∧ ((detachAll w l).getWidget) = w.getWidget
  ∧ (detachAll w l).widgets = w.widgets := by
  induction l generalizing w with
  | nil => exact ⟨rfl, rfl, rfl⟩
  | cons ph rest ih =>
      obtain ⟨p, h⟩ := ph
      have step := getProp_modifyProp w p q
        (fun ps => { ps with listeners := ps.listeners.filter fun hw => hw.1 ≠ h })
        (fun ps => ⟨rfl, rfl, rfl, rfl⟩)
      refine ⟨?_, ?_, ?_⟩
      · rw [detachAll, (ih _).1, step.1]
      · rw [detachAll, (ih _).2.1]
        rfl
      · rw [detachAll, (ih _).2.2]
        rfl

/-- `regProps` appends exactly the string-sourced declared properties, keeps
the sources and widgets of the world intact, and does not touch the data
source, the ledger, the publish count, or the presenter flag. -/
theorem regProps_spec (wid : Nat) (l : List PropId) (st : St) :
    (regProps wid st l).1.properties
      = st.1.properties ++ l.filter (fun p => (st.2.getProp p).source.isSome)
  ∧ (∀ q, ((regProps wid st l).2.getProp q).source = (st.2.getProp q).source)
  ∧ ((regProps wid st l).2.getWidget = st.2.getWidget)
  ∧ (regProps wid st l).1.dataSource = st.1.dataSource
  ∧ (regProps wid st l).1.widget2Property2Error = st.1.widget2Property2Error
  ∧ (regProps wid st l).1.publishCount = st.1.publishCount
  ∧ (regProps wid st l).1.errorPresenter = st.1.errorPresenter := by
  induction l generalizing st with
  | nil => simp [regProps]
  | cons p rest ih =>
      have hsrc : ∀ q, ((regStep wid p st).2.getProp q).source = (st.2.getProp q).source := by
        intro q
        exact (getProp_modifyProp st.2 p q _ (by intro ps; exact ⟨rfl, rfl, rfl, rfl⟩)).1
      cases hs : (st.2.getProp p).source with
      | none =>
          rw [regProps, hs]
          simpa [List.filter_cons, hs] using ih st
      | some s =>
          rw [regProps, hs]
          obtain ⟨ih1, ih2, ih3, ih4, ih5, ih6, ih7⟩ := ih (regStep wid p st)
          refine ⟨?_, ?_, ?_, ?_, ?_, ?_, ?_⟩
          · rw [ih1]
            have hf : (rest.filter fun q => ((regStep wid p st).2.getProp q).source.isSome)
                = rest.filter fun q => (st.2.getProp q).source.isSome := by
              apply List.filter_congr
              intro q _
              rw [hsrc q]
            rw [hf, List.filter_cons]
            simp [hs, regStep]
          · intro q
            rw [ih2 q, hsrc q]
          · rw [ih3]
            rfl
          · rw [ih4]
            rfl
          · rw [ih5]
            rfl
          · rw [ih6]
            rfl
          · rw [ih7]
            rfl

/-- `regList` only depends on the widgets' property lists and the
properties' sources. -/
theorem regList_congr (w1 w2 : World)
    (hw : w1.getWidget = w2.getWidget)
    (hs : ∀ q, (w1.getProp q).source = (w2.getProp q).source) :
    ∀ ws, regList w1 ws = regList w2 ws := by
  intro ws
  induction ws with
  | nil => rfl
  | cons wid rest ih =>
      rw [regList, regList, ih, hw]
      congr 1
      apply List.filter_congr
      intro q _
      rw [hs q]

/-- `regWidgets` appends `regList` and preserves the rest. -/
theorem regWidgets_spec (ws : List Nat) (st : St) :
    (regWidgets st ws).1.properties = st.1.properties ++ regList st.2 ws
  ∧ (regWidgets st ws).1.dataSource = st.1.dataSource
  ∧ (regWidgets st ws).1.widget2Property2Error = st.1.widget2Property2Error
  ∧ (regWidgets st ws).1.publishCount = st.1.publishCount
  ∧ (regWidgets st ws).1.errorPresenter = st.1.errorPresenter := by
  induction ws generalizing st with
  | nil => simp [regWidgets, regList]
  | cons wid rest ih =>
      rw [regWidgets]
      obtain ⟨r1, r2, r3, r4, r5, r6, r7⟩ :=
        regProps_spec wid (st.2.getWidget wid).wprops st
      obtain ⟨i1, i2, i3, i4, i5⟩ := ih (regProps wid st (st.2.getWidget wid).wprops)
      refine ⟨?_, ?_, ?_, ?_, ?_⟩
      · rw [i1, r1, regList_congr _ st.2 r3 r2 rest, regList, List.append_assoc]
      · rw [i2, r4]
      · rw [i3, r5]
      · rw [i4, r6]
      · rw [i5, r7]

theorem callSet_some {w : World} {p : PropId} {e : String}
    (h : (w.getProp p).setErr = some e) (v : Option Val) :
    w.callSet p v = (some e, w.logSet p) := by
  unfold World.callSet
  rw [h]

theorem modifyProp_getProp_self (w : World) (pr : PropId) (f : PropState → PropState) :
    (w.modifyProp pr f).getProp pr = f (w.getProp pr) := by
  unfold World.modifyProp World.getProp
  rw [lookupA_insertA_self]
  rfl

theorem modifyProp_getProp_other (w : World) {pr q : PropId} (f : PropState → PropState)
    (h : q ≠ pr) : (w.modifyProp pr f).getProp q = w.getProp q := by
  unfold World.modifyProp World.getProp
  rw [lookupA_insertA_ne _ (fun hh => h hh.symm)]

/-- The state after a `Set`-then-revalidate step of `Reset`: the binder's
model and property bookkeeping are untouched, the target property holds the
written value, every other property is untouched. -/
theorem vpSet_facts (stx : St) (pr : PropId) (v : Option Val) :
    (DataBinder.validateProperty
        (stx.1, ((stx.2.logGet pr).logSet pr).modifyProp pr fun ps => { ps with value := v })
        pr (lookupA stx.1.property2Widget pr)).1.dataSource = stx.1.dataSource
  ∧ (DataBinder.validateProperty
        (stx.1, ((stx.2.logGet pr).logSet pr).modifyProp pr fun ps => { ps with value := v })
        pr (lookupA stx.1.property2Widget pr)).1.properties = stx.1.properties
  ∧ (∀ q, q ≠ pr →
      (DataBinder.validateProperty
        (stx.1, ((stx.2.logGet pr).logSet pr).modifyProp pr fun ps => { ps with value := v })
        pr (lookupA stx.1.property2Widget pr)).2.getProp q = stx.2.getProp q)
  ∧ (DataBinder.validateProperty
        (stx.1, ((stx.2.logGet pr).logSet pr).modifyProp pr fun ps => { ps with value := v })
        pr (lookupA stx.1.property2Widget pr)).2.getProp pr
      = { stx.2.getProp pr with value := v } := by
  obtain ⟨h1, h2, _, _, _, h6, _, _⟩ := vp_frame
    (stx.1, ((stx.2.logGet pr).logSet pr).modifyProp pr fun ps => { ps with value := v })
    pr (lookupA stx.1.property2Widget pr)
  have hgp : ∀ q, (DataBinder.validateProperty
      (stx.1, ((stx.2.logGet pr).logSet pr).modifyProp pr fun ps => { ps with value := v })
      pr (lookupA stx.1.property2Widget pr)).2.getProp q
      = (((stx.2.logGet pr).logSet pr).modifyProp pr fun ps => { ps with value := v }).getProp q := by
    intro q
    unfold World.getProp
    rw [h6]
  refine ⟨h1, h2, ?_, ?_⟩
  · intro q hq
    rw [hgp q, modifyProp_getProp_other _ _ hq]
    rfl
  · rw [hgp pr, modifyProp_getProp_self]
    rfl

/-- Characterization of the non-`float64` branch of `resetAction` when it
succeeds. -/
theorem resetAction_else_char (pr : PropId) (fl : Val) (stx : St) (r : Val) (sty : St)
    (h : (match (stx.2.logGet pr).callSet pr (some fl) with
          | (some e, w2) => ARes.err (GoErr.ext e) (stx.1, w2)
          | (none, w2) => ARes.ok fl (DataBinder.validateProperty (stx.1, w2) pr
              (lookupA stx.1.property2Widget pr))) = ARes.ok r sty) :
    r = fl
  ∧ sty.1.dataSource = stx.1.dataSource
  ∧ sty.1.properties = stx.1.properties
  ∧ (∀ q, q ≠ pr → sty.2.getProp q = stx.2.getProp q)
  ∧ sty.2.getProp pr = { stx.2.getProp pr with value := some fl } := by
  cases hse : (stx.2.getProp pr).setErr with
  | some e =>
      have he2 : ((stx.2.logGet pr).getProp pr).setErr = some e := hse
      simp [callSet_some he2] at h
  | none =>
      have hse2 : ((stx.2.logGet pr).getProp pr).setErr = none := hse
      rw [callSet_none hse2] at h
      dsimp only at h
      injection h with hr hsty
      subst hr
      subst hsty
      obtain ⟨f1, f2, f3, f4⟩ := vpSet_facts stx pr (some fl)
      exact ⟨rfl, f1, f2, f3, f4⟩

/-- Full characterization of a successful `resetAction`: the returned field
is the incoming field (the model is never written by `Reset`), the binder's
model and properties are untouched, other properties are untouched, and the
target property now holds either the `float64` image of the field (numeric
field, `float64`-reporting property) or the field value itself. -/
theorem resetAction_ok_char (pr : PropId) (fl : Val) (stx : St) (r : Val) (sty : St)
    (h : resetAction pr fl stx = .ok r sty) :
    r = fl
  ∧ sty.1.dataSource = stx.1.dataSource
  ∧ sty.1.properties = stx.1.properties
  ∧ (∀ q, q ≠ pr → sty.2.getProp q = stx.2.getProp q)
  ∧ (∀ q, ((sty.2.getProp q).source = (stx.2.getProp q).source)
      ∧ (sty.2.getProp q).validator = (stx.2.getProp q).validator
      ∧ (sty.2.getProp q).setErr = (stx.2.getProp q).setErr)
  ∧ goodVal ((sty.2.getProp pr).value) fl := by
  have main : r = fl
      ∧ sty.1.dataSource = stx.1.dataSource
      ∧ sty.1.properties = stx.1.properties
      ∧ (∀ q, q ≠ pr → sty.2.getProp q = stx.2.getProp q)
      ∧ ((sty.2.getProp pr = { stx.2.getProp pr with value := some fl })
          ∨ ∃ f, toF64 fl = some f
              ∧ sty.2.getProp pr = { stx.2.getProp pr with value := some (.vFloat .f64 f) }) := by
    unfold resetAction at h
    cases hval : (stx.2.getProp pr).value with
    | none =>
        obtain ⟨a, b, c, d, e2⟩ := resetAction_else_char pr fl stx r sty (by simpa [hval] using h)
        exact ⟨a, b, c, d, Or.inl e2⟩
    | some v =>
        cases v with
        | vFloat w q =>
            cases w with
            | f64 =>
                simp only [hval] at h
                cases htf : toF64 fl with
                | none => rw [htf] at h; simp at h
                | some f =>
                    rw [htf] at h
                    dsimp only at h
                    cases hse : (stx.2.getProp pr).setErr with
                    | some e =>
                        have he2 : ((stx.2.logGet pr).getProp pr).setErr = some e := hse
                        simp [callSet_some he2] at h
                    | none =>
                        have hse2 : ((stx.2.logGet pr).getProp pr).setErr = none := hse
                        rw [callSet_none hse2] at h
                        dsimp only at h
                        injection h with hr hsty
                        subst hr
                        subst hsty
                        obtain ⟨f1, f2, f3, f4⟩ := vpSet_facts stx pr (some (.vFloat .f64 f))
                        exact ⟨rfl, f1, f2, f3, Or.inr ⟨f, rfl, f4⟩⟩
            | f32 =>
                obtain ⟨a, b, c, d, e2⟩ := resetAction_else_char pr fl stx r sty
                  (by simpa [hval] using h)
                exact ⟨a, b, c, d, Or.inl e2⟩
        | vInt w n =>
            obtain ⟨a, b, c, d, e2⟩ := resetAction_else_char pr fl stx r sty
              (by simpa [hval] using h)
            exact ⟨a, b, c, d, Or.inl e2⟩
        | vUint w n =>
            obtain ⟨a, b, c, d, e2⟩ := resetAction_else_char pr fl stx r sty
              (by simpa [hval] using h)
            exact ⟨a, b, c, d, Or.inl e2⟩
        | vString x =>
            obtain ⟨a, b, c, d, e2⟩ := resetAction_else_char pr fl stx r sty
              (by simpa [hval] using h)
            exact ⟨a, b, c, d, Or.inl e2⟩
        | vErrVal m =>
            obtain ⟨a, b, c, d, e2⟩ := resetAction_else_char pr fl stx r sty
              (by simpa [hval] using h)
            exact ⟨a, b, c, d, Or.inl e2⟩
        | vStruct n2 fs =>
            obtain ⟨a, b, c, d, e2⟩ := resetAction_else_char pr fl stx r sty
              (by simpa [hval] using h)
            exact ⟨a, b, c, d, Or.inl e2⟩
        | vPtr e t =>
            obtain ⟨a, b, c, d, e2⟩ := resetAction_else_char pr fl stx r sty
              (by simpa [hval] using h)
            exact ⟨a, b, c, d, Or.inl e2⟩
  obtain ⟨hr, h1, h2, h3, h4⟩ := main
  refine ⟨hr, h1, h2, h3, ?_, ?_⟩
  · intro q
    by_cases hq : q = pr
    · subst hq
      rcases h4 with h4 | ⟨f, _, h4⟩ <;> rw [h4] <;> exact ⟨rfl, rfl, rfl⟩
    · rw [h3 q hq]
      exact ⟨rfl, rfl, rfl⟩
  · rcases h4 with h4 | ⟨f, htf, h4⟩
    · right
      rw [h4]
    · left
      exact ⟨f, htf, by rw [h4]⟩

/-- `submitAction` touches no binder or property state: it only logs the
`Get` call. -/
theorem submitAction_st (pr : PropId) (fl : Val) (stx : St) :
    (submitAction pr fl stx).st = (stx.1, stx.2.logGet pr) := by
  unfold submitAction
  cases hv : (stx.2.getProp pr).value with
  | none => simp [hv, ARes.st]
  | some v =>
      cases v with
      | vErrVal m => simp [hv, ARes.st]
      | vFloat w q =>
          cases w with
          | f64 => cases fl <;> simp [hv, ARes.st]
          | f32 =>
              simp only [hv]
              split_ifs <;> simp [ARes.st]
      | vInt w n =>
          simp only [hv]
          split_ifs <;> simp [ARes.st]
      | vUint w n =>
          simp only [hv]
          split_ifs <;> simp [ARes.st]
      | vString x =>
          simp only [hv]
          split_ifs <;> simp [ARes.st]
      | vStruct n2 fs =>
          simp only [hv]
          split_ifs <;> simp [ARes.st]
      | vPtr e t =>
          simp only [hv]
          split_ifs <;> simp [ARes.st]

/-- Forward characterization of a successful walk: either the segment list
was empty (nothing happened), or the action was invoked exactly once, on the
resolved field, in the incoming state, and the new pointee is the write-back
of the action's result value. -/
theorem walkSegs_ok_inv (f : PropId → Val → St → ARes) (prop : PropId) :
    ∀ (names : List String) (st : St) (p s t : Val) (st' : St),
      walkSegs f prop st p s names = .ok t st' →
      (names = [] ∧ t = s ∧ st' = st)
    ∨ (∃ fv r, resolveIn s names = some fv ∧ f prop fv st = .ok r st'
         ∧ t = writeIn s names r) := by
  intro names
  induction names with
  | nil =>
      intro st p s t st' hw
      rw [walkSegs] at hw
      cases hw
      exact Or.inl ⟨rfl, rfl, rfl⟩
  | cons name rest ih =>
      intro st p s t st' hw
      right
      rw [walkSegs] at hw
      cases hfb : s.fieldByName name with
      | none => simp [hfb] at hw
      | some field =>
          cases hre : rest.isEmpty with
          | true =>
              have hrest : rest = [] := by
                cases rest with
                | nil => rfl
                | cons a b => simp [List.isEmpty] at hre
              subst hrest
              simp only [hfb, List.isEmpty_nil, if_true] at hw
              cases hf : f prop field st with
              | err e2 st2 => simp [hf] at hw
              | panicked m st2 => simp [hf] at hw
              | ok field' st1 =>
                  simp only [hf] at hw
                  cases hpn : p.isNilable with
                  | false => simp [hpn] at hw
                  | true =>
                      cases hpni : p.isNilPtr with
                      | true => simp [hpn, hpni] at hw
                      | false =>
                          cases hss : (s.setField name field').isStruct with
                          | false => simp [hpn, hpni, hss] at hw
                          | true =>
                              simp only [hpn, hpni, hss, Bool.not_true, Bool.not_false,
                                Bool.true_eq_false, Bool.false_eq_true, not_false_eq_true,
                                if_false, if_true] at hw
                              cases hw
                              refine ⟨field, field', ?_, hf, ?_⟩
                              · simp [resolveIn, hfb]
                              · simp [writeIn]
          | false =>
              cases hpk : p.kindIsPtr with
              | false => simp [hfb, hre, hpk] at hw
              | true =>
                  cases field with
                  | vPtr e tOpt =>
                      cases tOpt with
                      | none => simp [hfb, hre, hpk, Val.isNilable, Val.isNilPtr] at hw
                      | some inner =>
                          cases hst : inner.isStruct with
                          | false =>
                              simp [hfb, hre, hpk, Val.isNilable, Val.isNilPtr,
                                Val.indirect, hst] at hw
                          | true =>
                              simp only [hfb, hre, hpk, Val.isNilable, Val.isNilPtr,
                                Val.indirect, hst, Bool.not_true, Bool.false_eq_true,
                                Bool.true_eq_false, not_true_eq_false, not_false_eq_true,
                                if_false, if_true] at hw
                              cases hws : walkSegs f prop st (.vPtr e (some inner)) inner rest with
                              | err e2 st2 => simp [hws] at hw
                              | panicked m st2 => simp [hws] at hw
                              | ok t2 st2 =>
                                  simp only [hws] at hw
                                  injection hw with h1 h2
                                  subst h1
                                  subst h2
                                  rcases ih st (.vPtr e (some inner)) inner t2 st2 hws with
                                    ⟨hrest, _, _⟩ | ⟨fv, r, hres, hfr, hwr⟩
                                  · subst hrest
                                    simp [List.isEmpty] at hre
                                  · refine ⟨fv, r, ?_, hfr, ?_⟩
                                    · simp [resolveIn, hfb, hre, hst, hres]
                                    · simp [writeIn, hre, hfb, Val.withTarget, hwr]
                  | vInt w n => simp [hfb, hre, hpk, Val.isNilable] at hw
                  | vUint w n => simp [hfb, hre, hpk, Val.isNilable] at hw
                  | vFloat w q => simp [hfb, hre, hpk, Val.isNilable] at hw
                  | vString x => simp [hfb, hre, hpk, Val.isNilable] at hw
                  | vErrVal m => simp [hfb, hre, hpk, Val.isNilable] at hw
                  | vStruct n2 fs => simp [hfb, hre, hpk, Val.isNilable] at hw

/-- The state carried out of a walk is either the incoming state or the
state produced by one action invocation in the incoming state. -/
theorem walkSegs_st_cases (f : PropId → Val → St → ARes) (prop : PropId) :
    ∀ (names : List String) (st : St) (p s : Val),
      (walkSegs f prop st p s names).st = st
    ∨ ∃ fl, (walkSegs f prop st p s names).st = (f prop fl st).st := by
  intro names
  induction names with
  | nil => intro st p s; exact Or.inl rfl
  | cons name rest ih =>
      intro st p s
      rw [walkSegs]
      cases hfb : s.fieldByName name with
      | none => exact Or.inl rfl
      | some field =>
          cases hre : rest.isEmpty with
          | true =>
              simp only [hre, if_true]
              cases hf : f prop field st with
              | err e2 st2 =>
                  right
                  exact ⟨field, by simp [WRes.st, hf, ARes.st]⟩
              | panicked m st2 =>
                  right
                  exact ⟨field, by simp [WRes.st, hf, ARes.st]⟩
              | ok field' st1 =>
                  right
                  refine ⟨field, ?_⟩
                  cases hpn : p.isNilable with
                  | false => simp [WRes.st, hf, ARes.st, hpn]
                  | true =>
                      cases hpni : p.isNilPtr with
                      | true => simp [WRes.st, hf, ARes.st, hpn, hpni]
                      | false =>
                          cases hss : (s.setField name field').isStruct with
                          | false => simp [WRes.st, hf, ARes.st, hpn, hpni, hss]
                          | true => simp [WRes.st, hf, ARes.st, hpn, hpni, hss]
          | false =>
              cases hpk : p.kindIsPtr with
              | false => simp [hre, hpk, WRes.st]
              | true =>
                  cases field with
                  | vPtr e tOpt =>
                      cases tOpt with
                      | none => simp [hre, hpk, Val.isNilable, Val.isNilPtr, WRes.st]
                      | some inner =>
                          cases hst : inner.isStruct with
                          | false =>
                              simp [hre, hpk, Val.isNilable, Val.isNilPtr, Val.indirect,
                                hst, WRes.st]
                          | true =>
                              simp only [hre, hpk, Val.isNilable, Val.isNilPtr, Val.indirect,
                                hst, Bool.not_true, Bool.false_eq_true, Bool.true_eq_false,
                                not_true_eq_false, not_false_eq_true, if_false, if_true]
                              rcases ih st (.vPtr e (some inner)) inner with hpres | ⟨fl, hfl⟩
                              · left
                                cases hws : walkSegs f prop st (.vPtr e (some inner)) inner rest with
                                | err e2 st2 => rw [hws] at hpres; simpa [WRes.st] using hpres
                                | panicked m st2 => rw [hws] at hpres; simpa [WRes.st] using hpres
                                | ok t2 st2 => rw [hws] at hpres; simpa [WRes.st] using hpres
                              · right
                                refine ⟨fl, ?_⟩
                                cases hws : walkSegs f prop st (.vPtr e (some inner)) inner rest with
                                | err e2 st2 => rw [hws] at hfl; simpa [WRes.st] using hfl
                                | panicked m st2 => rw [hws] at hfl; simpa [WRes.st] using hfl
                                | ok t2 st2 => rw [hws] at hfl; simpa [WRes.st] using hfl
                  | vInt w n => simp [hre, hpk, Val.isNilable, WRes.st]
                  | vUint w n => simp [hre, hpk, Val.isNilable, WRes.st]
                  | vFloat w q => simp [hre, hpk, Val.isNilable, WRes.st]
                  | vString x => simp [hre, hpk, Val.isNilable, WRes.st]
                  | vErrVal m => simp [hre, hpk, Val.isNilable, WRes.st]
                  | vStruct n2 fs => simp [hre, hpk, Val.isNilable, WRes.st]

/-- `validateProperty` preserves ledger key-uniqueness. -/
theorem vp_ledgerWF (st : St) (prop : PropId) (widget : Option Nat)
    (hwf : ledgerWF st.1) : ledgerWF (DataBinder.validateProperty st prop widget).1 := by
  obtain ⟨hk, hi⟩ := hwf
  unfold DataBinder.validateProperty
  cases hv : (st.2.getProp prop).validator with
  | none => simp only [hv]; exact ⟨hk, hi⟩
  | some validate =>
      cases he : validate (st.2.getProp prop).value with
      | some e =>
          simp only [hv, he, vpFinish_eq]
          split_ifs <;>
            refine ⟨nodup_keys_insertA hk, ?_⟩ <;>
            · intro w inner hlk
              by_cases hw : w = widget
              · subst hw
                rw [lookupA_insertA_self] at hlk
                injection hlk with hlk
                subst hlk
                apply nodup_keys_insertA
                cases hpe : lookupA st.1.widget2Property2Error w with
                | none => simp [hpe]
                | some inner0 =>
                    simp only [hpe, Option.getD_some]
                    exact hi w inner0 hpe
              · rw [lookupA_insertA_ne _ (fun hh => hw hh.symm)] at hlk
                exact hi w inner hlk
      | none =>
          cases hpe : lookupA st.1.widget2Property2Error widget with
          | none => simp only [hv, he, hpe]; exact ⟨hk, hi⟩
          | some inner =>
              by_cases hie : (eraseA inner prop).isEmpty
              · simp only [hv, he, hpe, hie, if_pos, vpFinish_eq]
                split_ifs <;>
                  refine ⟨nodup_keys_eraseA hk, ?_⟩ <;>
                  · intro w inner2 hlk
                    by_cases hw : w = widget
                    · subst hw
                      rw [lookupA_eraseA_self hk] at hlk
                      cases hlk
                    · rw [lookupA_eraseA_ne (fun hh => hw hh.symm)] at hlk
                      exact hi w inner2 hlk
              · simp only [hv, he, hpe, vpFinish_eq]
                rw [if_neg hie]
                simp only [vpFinish_eq]
                split_ifs <;>
                  refine ⟨nodup_keys_insertA hk, ?_⟩ <;>
                  · intro w inner2 hlk
                    by_cases hw : w = widget
                    · subst hw
                      rw [lookupA_insertA_self] at hlk
                      injection hlk with hlk
                      subst hlk
                      exact nodup_keys_eraseA (hi w inner hpe)
                    · rw [lookupA_insertA_ne _ (fun hh => hw hh.symm)] at hlk
                      exact hi w inner2 hlk

/-- After `validateProperty` for a property with a validator, the ledger
entry for that (widget, property) pair is exactly the validator's verdict on
the property's current value. -/
theorem vp_ledger_self (st : St) (prop : PropId) (widget : Option Nat)
    (hwf : ledgerWF st.1) (validate : Option Val → Option String)
    (hv : (st.2.getProp prop).validator = some validate) :
    lookup2 (DataBinder.validateProperty st prop widget).1 widget prop
      = validate ((st.2.getProp prop).value) := by
  obtain ⟨hk, hi⟩ := hwf
  unfold DataBinder.validateProperty
  cases he : validate (st.2.getProp prop).value with
  | some e =>
      simp only [hv, he, vpFinish_eq]
      unfold lookup2
      split_ifs <;>
        simp [lookupA_insertA_self]
  | none =>
      cases hpe : lookupA st.1.widget2Property2Error widget with
      | none =>
          simp only [hv, he, hpe]
          unfold lookup2
          rw [hpe]
      | some inner =>
          by_cases hie : (eraseA inner prop).isEmpty
          · simp only [hv, he, hpe, hie, if_pos, vpFinish_eq]
            unfold lookup2
            split_ifs <;>
              simp [lookupA_eraseA_self hk]
          · simp only [hv, he, hpe, vpFinish_eq]
            rw [if_neg hie]
            simp only [vpFinish_eq]
            unfold lookup2
            split_ifs <;>
              simp [lookupA_insertA_self, lookupA_eraseA_self (hi widget inner hpe)]

/-- `validateProperty` for `(prop, widget)` leaves every other ledger entry
unchanged. -/
theorem vp_ledger_other (st : St) (prop : PropId) (widget : Option Nat)
    (hwf : ledgerWF st.1)
    (w : Option Nat) (q : PropId) (hne : ¬(w = widget ∧ q = prop)) :
    lookup2 (DataBinder.validateProperty st prop widget).1 w q
      = lookup2 st.1 w q := by
  obtain ⟨hk, hi⟩ := hwf
  unfold DataBinder.validateProperty
  cases hv : (st.2.getProp prop).validator with
  | none => simp only [hv]
  | some validate =>
      cases he : validate (st.2.getProp prop).value with
      | some e =>
          simp only [hv, he, vpFinish_eq]
          unfold lookup2
          split_ifs <;>
          · by_cases hw : w = widget
            · subst hw
              have hq : q ≠ prop := fun hh => hne ⟨rfl, hh⟩
              rw [lookupA_insertA_self]
              cases hpe : lookupA st.1.widget2Property2Error w with
              | none =>
                  simp [hpe, lookupA_insertA_ne _ (fun hh => hq hh.symm), lookupA]
                  exact fun hh => hq hh.symm
              | some inner =>
                  simp [hpe, lookupA_insertA_ne _ (fun hh => hq hh.symm)]
            · rw [lookupA_insertA_ne _ (fun hh => hw hh.symm)]
      | none =>
          cases hpe : lookupA st.1.widget2Property2Error widget with
          | none => simp only [hv, he, hpe]
          | some inner =>
              by_cases hie : (eraseA inner prop).isEmpty
              · have hienil : eraseA inner prop = [] := by
                  cases h' : eraseA inner prop with
                  | nil => rfl
                  | cons x xs => rw [h'] at hie; simp [List.isEmpty] at hie
                simp only [hv, he, hpe, hie, if_pos, vpFinish_eq]
                unfold lookup2
                split_ifs <;>
                · by_cases hw : w = widget
                  · subst hw
                    have hq : q ≠ prop := fun hh => hne ⟨rfl, hh⟩
                    rw [lookupA_eraseA_self hk, hpe]
                    dsimp only
                    rw [eraseA_eq_nil_lookup_ne hienil hq]
                  · rw [lookupA_eraseA_ne (fun hh => hw hh.symm)]
              · simp only [hv, he, hpe, vpFinish_eq]
                rw [if_neg hie]
                simp only [vpFinish_eq]
                unfold lookup2
                split_ifs <;>
                · by_cases hw : w = widget
                  · subst hw
                    have hq : q ≠ prop := fun hh => hne ⟨rfl, hh⟩
                    rw [lookupA_insertA_self, hpe]
                    dsimp only
                    rw [lookupA_eraseA_ne (fun hh => hq hh.symm)]
                  · rw [lookupA_insertA_ne _ (fun hh => hw hh.symm)]

/-- The non-`float64` branch of a successful `resetAction` ends in a
re-validation of exactly the processed property against its owning widget. -/
theorem resetAction_else_vp (pr : PropId) (fl : Val) (stx : St) (r : Val) (sty : St)
    (h : (match (stx.2.logGet pr).callSet pr (some fl) with
          | (some e, w2) => ARes.err (GoErr.ext e) (stx.1, w2)
          | (none, w2) => ARes.ok fl (DataBinder.validateProperty (stx.1, w2) pr
              (lookupA stx.1.property2Widget pr))) = ARes.ok r sty) :
    sty = DataBinder.validateProperty
      (stx.1, ((stx.2.logGet pr).logSet pr).modifyProp pr fun ps => { ps with value := some fl })
      pr (lookupA stx.1.property2Widget pr) := by
  cases hse : (stx.2.getProp pr).setErr with
  | some e =>
      have he2 : ((stx.2.logGet pr).getProp pr).setErr = some e := hse
      simp [callSet_some he2] at h
  | none =>
      have hse2 : ((stx.2.logGet pr).getProp pr).setErr = none := hse
      rw [callSet_none hse2] at h
      dsimp only at h
      injection h with hr hsty
      exact hsty.symm

/-- Every successful `resetAction` ends in re-running validation for exactly
the processed property and its owning widget, on the state where that
property holds the just-written value. -/
theorem resetAction_ok_vp (pr : PropId) (fl : Val) (stx : St) (r : Val) (sty : St)
    (h : resetAction pr fl stx = .ok r sty) :
    ∃ v2 : Option Val, sty = DataBinder.validateProperty
      (stx.1, ((stx.2.logGet pr).logSet pr).modifyProp pr fun ps => { ps with value := v2 })
      pr (lookupA stx.1.property2Widget pr) := by
  unfold resetAction at h
  cases hval : (stx.2.getProp pr).value with
  | none => exact ⟨some fl, resetAction_else_vp pr fl stx r sty (by simpa [hval] using h)⟩
  | some v =>
      cases v with
      | vFloat w q =>
          cases w with
          | f64 =>
              simp only [hval] at h
              cases htf : toF64 fl with
              | none => rw [htf] at h; simp at h
              | some f =>
                  rw [htf] at h
                  dsimp only at h
                  cases hse : (stx.2.getProp pr).setErr with
                  | some e =>
                      have he2 : ((stx.2.logGet pr).getProp pr).setErr = some e := hse
                      simp [callSet_some he2] at h
                  | none =>
                      have hse2 : ((stx.2.logGet pr).getProp pr).setErr = none := hse
                      rw [callSet_none hse2] at h
                      dsimp only at h
                      injection h with hr hsty
                      exact ⟨some (.vFloat .f64 f), hsty.symm⟩
          | f32 => exact ⟨some fl, resetAction_else_vp pr fl stx r sty (by simpa [hval] using h)⟩
      | vInt w n => exact ⟨some fl, resetAction_else_vp pr fl stx r sty (by simpa [hval] using h)⟩
      | vUint w n => exact ⟨some fl, resetAction_else_vp pr fl stx r sty (by simpa [hval] using h)⟩
      | vString x => exact ⟨some fl, resetAction_else_vp pr fl stx r sty (by simpa [hval] using h)⟩
      | vErrVal m => exact ⟨some fl, resetAction_else_vp pr fl stx r sty (by simpa [hval] using h)⟩
      | vStruct n2 fs => exact ⟨some fl, resetAction_else_vp pr fl stx r sty (by simpa [hval] using h)⟩
      | vPtr e2 t => exact ⟨some fl, resetAction_else_vp pr fl stx r sty (by simpa [hval] using h)⟩

/-- A `Submit` step writes back exactly the value the field already has,
when the property is in post-`Reset` shape and the field value is
well-formed. -/
theorem submit_writes_id (pr : PropId) (fv : Val) (stx : St)
    (hrepr : fv.reprB = true)
    (hgood : goodVal ((stx.2.getProp pr).value) fv) :
    submitAction pr fv stx = .ok fv (stx.1, stx.2.logGet pr) := by
  rcases hgood with ⟨f, htf, hv⟩ | hv
  · simp only [submitAction, hv]
    cases fv with
    | vInt w n =>
        simp only [toF64] at htf
        injection htf with hf
        simp only [Val.reprB, Bool.and_eq_true, decide_eq_true_eq] at hrepr
        obtain ⟨⟨hlo, hhi⟩, hrp⟩ := hrepr
        show ARes.ok (.vInt w (wrapI w (truncQ f))) (stx.1, stx.2.logGet pr)
            = ARes.ok (.vInt w n) (stx.1, stx.2.logGet pr)
        rw [← hf, hrp, truncQ_qInt, wrapI_eq_self w n hlo hhi]
    | vUint w n =>
        simp only [toF64] at htf
        injection htf with hf
        simp only [Val.reprB, Bool.and_eq_true, decide_eq_true_eq] at hrepr
        obtain ⟨hlt, hrp⟩ := hrepr
        show ARes.ok (.vUint w (wrapU w (truncQ f))) (stx.1, stx.2.logGet pr)
            = ARes.ok (.vUint w n) (stx.1, stx.2.logGet pr)
        rw [← hf, hrp, truncQ_qInt, wrapU_eq_self w n hlt]
    | vFloat w q =>
        cases w with
        | f64 =>
            simp only [toF64] at htf
            injection htf with hf
            rw [← hf]
            rfl
        | f32 =>
            simp only [toF64] at htf
            injection htf with hf
            simp only [Val.reprB, decide_eq_true_eq] at hrepr
            rw [← hf]
            show ARes.ok (.vFloat .f32 (setFloatVal .f32 q)) _ = _
            rw [show setFloatVal .f32 q = q from hrepr]
    | vString x => simp [toF64] at htf
    | vErrVal m => simp [toF64] at htf
    | vStruct n2 fs => simp [toF64] at htf
    | vPtr e2 t => simp [toF64] at htf
  · simp only [submitAction, hv]
    cases fv with
    | vErrVal m => simp [Val.reprB] at hrepr
    | vFloat w q =>
        cases w with
        | f64 => rfl
        | f32 => simp [Ty.beq_refl]
    | vInt w n => simp [Ty.beq_refl]
    | vUint w n => simp [Ty.beq_refl]
    | vString x => simp [Ty.beq_refl]
    | vStruct n2 fs => simp [Ty.beq_refl]
    | vPtr e2 t => simp [Ty.beq_refl]

/-- The `Reset` property loop, run to success, leaves the data source
unchanged, preserves the property list and every property's source,
validator and `Set` behavior, and leaves every processed property in
post-`Reset` shape. -/
theorem resetLoop (e : Ty) (s0 : Val) :
    ∀ (props : List PropId) (st : St) (stF : St),
      st.1.dataSource = some (.vPtr e (some s0)) →
      forEachProps resetAction st (.vPtr e (some s0)) props = (.ok, stF) →
      stF.1.dataSource = some (.vPtr e (some s0))
    ∧ stF.1.properties = st.1.properties
    ∧ (∀ q, ((stF.2.getProp q).source = (st.2.getProp q).source)
          ∧ (stF.2.getProp q).validator = (st.2.getProp q).validator
          ∧ (stF.2.getProp q).setErr = (st.2.getProp q).setErr)
    ∧ (∀ q, goodAt (.vPtr e (some s0)) st.2 q → goodAt (.vPtr e (some s0)) stF.2 q)
    ∧ (∀ q, q ∈ props → goodAt (.vPtr e (some s0)) stF.2 q) := by
  intro props
  induction props with
  | nil =>
      intro st stF hds hF
      rw [forEachProps] at hF
      injection hF with h1 h2
      subst h2
      exact ⟨hds, rfl, fun q => ⟨rfl, rfl, rfl⟩, fun q h => h, fun q h => absurd h (by simp)⟩
  | cons p rest ih =>
      intro st stF hds hF
      rw [forEachProps] at hF
      cases hsp : (st.2.getProp p).source with
      | none => simp [hsp] at hF
      | some path =>
          simp only [hsp] at hF
          cases hws : walkSegs resetAction p st (.vPtr e (some s0))
              ((Val.vPtr e (some s0)).indirect) (splitDot path) with
          | err e2 st2 => simp [hws] at hF
          | panicked m st2 => simp [hws] at hF
          | ok t st2 =>
              simp only [hws] at hF
              rcases walkSegs_ok_inv resetAction p (splitDot path) st _ _ t st2 hws with
                ⟨hnil, _, _⟩ | ⟨fv, r, hres, hact, hwr⟩
              · exact absurd hnil (splitDot_ne_nil path)
              · obtain ⟨hr, hds2, hprops2, hother, hsrc2, hgood2⟩ :=
                  resetAction_ok_char p fv st r st2 hact
                rw [hr] at hwr
                have ht : t = (Val.vPtr e (some s0)).indirect := by
                  rw [hwr]
                  exact writeIn_self hres
                have hroot : (Val.vPtr e (some s0)).withTarget t = .vPtr e (some s0) := by
                  rw [ht]
                  rfl
                rw [hroot] at hF
                have hgp : goodAt (.vPtr e (some s0)) st2.2 p :=
                  ⟨path, fv, (hsrc2 p).1.trans hsp, hres, hgood2⟩
                have hpres : ∀ q, goodAt (.vPtr e (some s0)) st.2 q →
                    goodAt (.vPtr e (some s0)) st2.2 q := by
                  intro q hq
                  by_cases hqp : q = p
                  · subst hqp
                    exact hgp
                  · obtain ⟨path', fv', a, b, c⟩ := hq
                    refine ⟨path', fv', ?_, b, ?_⟩
                    · rw [hother q hqp]
                      exact a
                    · rw [hother q hqp]
                      exact c
                obtain ⟨i1, i2, i3, i4, i5⟩ := ih _ stF rfl hF
                refine ⟨i1, ?_, ?_, ?_, ?_⟩
                · rw [i2]
                  exact hprops2
                · intro q
                  obtain ⟨a1, a2, a3⟩ := i3 q
                  obtain ⟨b1, b2, b3⟩ := hsrc2 q
                  exact ⟨a1.trans b1, a2.trans b2, a3.trans b3⟩
                · intro q hq
                  exact i4 q (hpres q hq)
                · intro q hq
                  rcases List.mem_cons.mp hq with hq | hq
                  · subst hq
                    exact i4 q hgp
                  · exact i5 q hq

/-- The `Submit` property loop never changes the data source when every
property is in post-`Reset` shape over a well-formed model: every write
stores the value the field already holds. -/
theorem submitLoop (e : Ty) (s0 : Val) (hwf : s0.reprB = true) :
    ∀ (props : List PropId) (st : St),
      st.1.dataSource = some (.vPtr e (some s0)) →
      (∀ q, q ∈ props → goodAt (.vPtr e (some s0)) st.2 q) →
      (forEachProps submitAction st (.vPtr e (some s0)) props).2.1.dataSource
        = some (.vPtr e (some s0)) := by
  intro props
  induction props with
  | nil =>
      intro st hds _
      rw [forEachProps]
      exact hds
  | cons p rest ih =>
      intro st hds hgood
      rw [forEachProps]
      obtain ⟨path, fv, hsp, hres, hgv⟩ := hgood p (List.mem_cons_self p rest)
      simp only [hsp]
      cases hws : walkSegs submitAction p st (.vPtr e (some s0))
          ((Val.vPtr e (some s0)).indirect) (splitDot path) with
      | err e2 st2 =>
          rcases walkSegs_st_cases submitAction p (splitDot path) st
              (.vPtr e (some s0)) ((Val.vPtr e (some s0)).indirect) with hc | ⟨fl, hc⟩
          · rw [hws] at hc
            dsimp [WRes.st] at hc
            rw [hc]
            exact hds
          · rw [hws] at hc
            dsimp [WRes.st] at hc
            rw [submitAction_st] at hc
            rw [hc]
            exact hds
      | panicked m st2 =>
          rcases walkSegs_st_cases submitAction p (splitDot path) st
              (.vPtr e (some s0)) ((Val.vPtr e (some s0)).indirect) with hc | ⟨fl, hc⟩
          · rw [hws] at hc
            dsimp [WRes.st] at hc
            rw [hc]
            exact hds
          · rw [hws] at hc
            dsimp [WRes.st] at hc
            rw [submitAction_st] at hc
            rw [hc]
            exact hds
      | ok t st2 =>
          rcases walkSegs_ok_inv submitAction p (splitDot path) st _ _ t st2 hws with
            ⟨hnil, _, _⟩ | ⟨fv2, r, hres2, hact, hwr⟩
          · exact absurd hnil (splitDot_ne_nil path)
          · have hfv : fv2 = fv := by
              rw [hres] at hres2
              injection hres2 with h
              exact h.symm
            subst hfv
            have hrepr : fv2.reprB = true :=
              resolveIn_reprB (show ((Val.vPtr e (some s0)).indirect).reprB = true from hwf) hres
            have hid := submit_writes_id p fv2 st hrepr hgv
            rw [hid] at hact
            injection hact with h1 h2
            subst h1
            subst h2
            have ht : t = (Val.vPtr e (some s0)).indirect := by
              rw [hwr]
              exact writeIn_self hres
            have hroot : (Val.vPtr e (some s0)).withTarget t = .vPtr e (some s0) := by
              rw [ht]
              rfl
            dsimp only
            rw [hroot]
            apply ih
            · rfl
            · intro q hq
              obtain ⟨path', fv', a, b, c⟩ := hgood q (List.mem_cons_of_mem _ hq)
              exact ⟨path', fv', a, b, c⟩

/-- The `Reset` property loop, run to success with a well-formed ledger and
no duplicate registrations, leaves the ledger reflecting every processed
property's validator verdict on its post-reset value, keyed by its owning
widget, and disturbs no other ledger entry. -/
theorem resetLedgerLoop (e : Ty) (s0 : Val) :
    ∀ (props : List PropId) (st stF : St),
      forEachProps resetAction st (.vPtr e (some s0)) props = (.ok, stF) →
      ledgerWF st.1 →
      props.Nodup →
      ledgerWF stF.1
    ∧ stF.1.property2Widget = st.1.property2Widget
    ∧ (∀ w q, q ∉ props → lookup2 stF.1 w q = lookup2 st.1 w q)
    ∧ (∀ q, q ∉ props → (stF.2.getProp q).value = (st.2.getProp q).value)
    ∧ (∀ q, (stF.2.getProp q).validator = (st.2.getProp q).validator)
    ∧ (∀ p ∈ props, ∀ vf, (st.2.getProp p).validator = some vf →
          lookup2 stF.1 (lookupA st.1.property2Widget p) p
            = vf ((stF.2.getProp p).value)) := by
  intro props
  induction props with
  | nil =>
      intro st stF hF hwfL _
      rw [forEachProps] at hF
      injection hF with h1 h2
      subst h2
      exact ⟨hwfL, rfl, fun w q _ => rfl, fun q _ => rfl, fun q => rfl,
        fun p hp => absurd hp (by simp)⟩
  | cons p rest ih =>
      intro st stF hF hwfL hnd
      obtain ⟨hpnotin, hndrest⟩ := List.nodup_cons.mp hnd
      rw [forEachProps] at hF
      cases hsp : (st.2.getProp p).source with
      | none => simp [hsp] at hF
      | some path =>
          simp only [hsp] at hF
          cases hws : walkSegs resetAction p st (.vPtr e (some s0))
              ((Val.vPtr e (some s0)).indirect) (splitDot path) with
          | err e2 st2 => simp [hws] at hF
          | panicked m st2 => simp [hws] at hF
          | ok t st2 =>
              simp only [hws] at hF
              rcases walkSegs_ok_inv resetAction p (splitDot path) st _ _ t st2 hws with
                ⟨hnil, _, _⟩ | ⟨fv, r, hres, hact, hwr⟩
              · exact absurd hnil (splitDot_ne_nil path)
              · obtain ⟨hr, hds2, hprops2, hother, hsrc2, hgood2⟩ :=
                  resetAction_ok_char p fv st r st2 hact
                obtain ⟨v2, hVP⟩ := resetAction_ok_vp p fv st r st2 hact
                rw [hr] at hwr
                have ht : t = (Val.vPtr e (some s0)).indirect := by
                  rw [hwr]
                  exact writeIn_self hres
                have hroot : (Val.vPtr e (some s0)).withTarget t = .vPtr e (some s0) := by
                  rw [ht]
                  rfl
                rw [hroot] at hF
                -- facts about the processed step
                have hwfL2 : ledgerWF st2.1 := by
                  rw [hVP]
                  exact vp_ledgerWF
                    (st.1, ((st.2.logGet p).logSet p).modifyProp p fun ps => { ps with value := v2 })
                    p (lookupA st.1.property2Widget p) hwfL
                have hledother : ∀ w q, ¬(w = lookupA st.1.property2Widget p ∧ q = p) →
                    lookup2 st2.1 w q = lookup2 st.1 w q := by
                  intro w q hq
                  rw [hVP]
                  exact vp_ledger_other
                    (st.1, ((st.2.logGet p).logSet p).modifyProp p fun ps => { ps with value := v2 })
                    p (lookupA st.1.property2Widget p) hwfL w q hq
                have hp2w2 : st2.1.property2Widget = st.1.property2Widget := by
                  rw [hVP]
                  exact (vp_frame
                    (st.1, ((st.2.logGet p).logSet p).modifyProp p fun ps => { ps with value := v2 })
                    p (lookupA st.1.property2Widget p)).2.2.1
                have hval2 : (st2.2.getProp p).value = v2 := by
                  obtain ⟨_, _, _, vf4⟩ := vpSet_facts st p v2
                  rw [hVP, vf4]
                have hself : ∀ vf, (st.2.getProp p).validator = some vf →
                    lookup2 st2.1 (lookupA st.1.property2Widget p) p = vf v2 := by
                  intro vf hv
                  rw [hVP]
                  rw [vp_ledger_self
                    (st.1, ((st.2.logGet p).logSet p).modifyProp p fun ps => { ps with value := v2 })
                    p (lookupA st.1.property2Widget p) hwfL vf ?hv2]
                  case hv2 =>
                    show ((((st.2.logGet p).logSet p).modifyProp p
                        fun ps => { ps with value := v2 }).getProp p).validator = some vf
                    rw [modifyProp_getProp_self]
                    exact hv
                  show vf ((((st.2.logGet p).logSet p).modifyProp p
                      fun ps => { ps with value := v2 }).getProp p).value = vf v2
                  rw [modifyProp_getProp_self]
                obtain ⟨i1, i2, i3, i4, i5, i6⟩ := ih _ stF hF hwfL2 hndrest
                refine ⟨i1, ?_, ?_, ?_, ?_, ?_⟩
                · rw [i2]
                  exact hp2w2
                · intro w q hq
                  have hq1 : q ∉ rest := fun hh => hq (List.mem_cons_of_mem _ hh)
                  have hq2 : q ≠ p := fun hh => hq (hh ▸ List.mem_cons_self p rest)
                  rw [i3 w q hq1]
                  exact hledother w q (fun hh => hq2 hh.2)
                · intro q hq
                  have hq1 : q ∉ rest := fun hh => hq (List.mem_cons_of_mem _ hh)
                  have hq2 : q ≠ p := fun hh => hq (hh ▸ List.mem_cons_self p rest)
                  rw [i4 q hq1]
                  show (st2.2.getProp q).value = (st.2.getProp q).value
                  rw [hother q hq2]
                · intro q
                  rw [i5 q]
                  exact (hsrc2 q).2.1
                · intro p' hp' vf hv
                  rcases List.mem_cons.mp hp' with hp' | hp'
                  · subst hp'
                    rw [i3 _ p' hpnotin, i4 p' hpnotin]
                    show lookup2 st2.1 (lookupA st.1.property2Widget p') p'
                        = vf ((st2.2.getProp p').value)
                    rw [hself vf hv, hval2]
                  · have hv2 : (st2.2.getProp p').validator = some vf := by
                      rw [(hsrc2 p').2.1]
                      exact hv
                    have := i6 p' hp' vf hv2
                    rw [hp2w2] at this
                    exact this

/-! # Claim theorems -/

/-- C2: whenever the ledger is non-empty (`CanSubmit` is false), `Submit`
returns the dedicated `validationFailed` sentinel — distinguishable from
every `binding` error — and leaves the entire state (model, properties,
logs) unchanged: the check happens before any traversal. -/
theorem submit_refuses_when_invalid (st : St) (h : st.1.CanSubmit = false) :
    DataBinder.Submit st = (.err .validationFailed, st)
  ∧ ∀ msg, (GoErr.validationFailed ≠ GoErr.binding msg) := by
  refine ⟨?_, fun msg hc => by cases hc⟩
  unfold DataBinder.Submit
  rw [h]
  simp

/-- C2 witness: a binder with one outstanding ledger entry. -/
theorem submit_refuses_when_invalid_witness :
    DataBinder.Submit (fxBinderInvalid, fxWorldN)
      = (.err .validationFailed, (fxBinderInvalid, fxWorldN)) :=
  (submit_refuses_when_invalid (fxBinderInvalid, fxWorldN) rfl).1

/-- C10: with a typed nil pointer as data source, `Reset` succeeds without
visiting any property (the state, including all call logs, is unchanged),
and so does `Submit` when the ledger is empty. -/
theorem reset_submit_typed_nil (st : St) (t : Ty)
    (h : st.1.dataSource = some (.vPtr t none)) :
    DataBinder.Reset st = (.ok, st)
  ∧ (st.1.CanSubmit = true → DataBinder.Submit st = (.ok, st)) := by
  constructor
  · unfold DataBinder.Reset DataBinder.forEach
    rw [h]
    simp [Val.kindIsPtr, Val.isNilPtr]
  · intro hc
    unfold DataBinder.Submit DataBinder.forEach
    rw [hc, h]
    simp [Val.kindIsPtr, Val.isNilPtr]

/-- C10 witness: a binder with a registered property and a typed nil
`*Data` data source. -/
theorem reset_submit_typed_nil_witness :
    DataBinder.Reset (fxBinder (some (.vPtr (.tStruct "Data" .nil) none)), fxWorldN)
        = (.ok, (fxBinder (some (.vPtr (.tStruct "Data" .nil) none)), fxWorldN))
  ∧ DataBinder.Submit (fxBinder (some (.vPtr (.tStruct "Data" .nil) none)), fxWorldN)
        = (.ok, (fxBinder (some (.vPtr (.tStruct "Data" .nil) none)), fxWorldN)) := by
  have h := reset_submit_typed_nil
    (fxBinder (some (.vPtr (.tStruct "Data" .nil) none)), fxWorldN) (.tStruct "Data" .nil) rfl
  exact ⟨h.1, h.2 rfl⟩

/-- C6: evaluation of the traversal on malformed shapes.  A nil intermediate
pointer under path "Address.City" returns the `BindingError`
"Pointer must not be nil." with the whole state unchanged (the `City` field
is never accessed: no `Get`/`Set` call is logged), and a non-pointer root
returns "DataSource must be a pointer to a struct."; but an intermediate
field that is a struct held by value makes the traversal panic inside
`reflect.Value.IsNil` instead of returning a `BindingError`, because the
pointer-kind guard of line 270 tests `p` instead of `field` (the intended
error branch at line 273 is unreachable). -/
theorem forEach_malformed_shapes :
    DataBinder.Reset (fxBinder (some fxModelAddrNil), fxWorldAddr)
      = (.err (.binding "Pointer must not be nil."), (fxBinder (some fxModelAddrNil), fxWorldAddr))
  ∧ (DataBinder.Reset (fxBinder (some (.vString "notptr")), fxWorldAddr)).1
      = .err (.binding "DataSource must be a pointer to a struct.")
  ∧ (DataBinder.Reset (fxBinder (some fxModelAddrStruct), fxWorldAddr)).1
      = .panicked "reflect: call of reflect.Value.IsNil on struct Value" :=
  ⟨rfl, rfl, rfl⟩

/-- C5: evaluation of re-registration at the failing input.  The second
`SetBoundWidgets` call detaches the session-1 listener (so a change on the
session-1 property triggers no validation) and rebuilds the
property-to-widget registry and the ledger from the new widgets only, but
the ordered `properties` sequence is appended to rather than rebuilt: the
session-1 property 0 is still in it. -/
theorem setBoundWidgets_keeps_stale_properties :
    fxSession1.1.properties = [0]
  ∧ fxSession2.1.properties = [0, 1]
  ∧ (fxSession2.2.getProp 0).listeners = []
  ∧ fxSession2.1.property2Widget = [(1, 101)]
  ∧ fxSession2.1.widget2Property2Error = []
  ∧ fireChanged fxSession2 0 = fxSession2 :=
  ⟨rfl, rfl, rfl, rfl, rfl, rfl⟩

/-- C7 counterexample: a property whose `Source()` is the empty string is
registered (the source only checks that `Source()` is a string, not that it
is non-empty), so `properties` gains an entry whose textual source is
empty. -/
theorem empty_source_property_registered :
    (DataBinder.SetBoundWidgets (NewDataBinder, fxWorldEmptySource) [100]).1.properties = [0]
  ∧ (fxWorldEmptySource.getProp 0).source = some "" :=
  ⟨rfl, rfl⟩

/-- C1 counterexample: after one failing validation the ledger is non-empty
and one eligibility notification has been published; a subsequent
`SetBoundWidgets` empties the ledger — `CanSubmit` flips back to true — yet
publishes nothing, so the notification does not fire on this
empty/non-empty transition. -/
theorem ledger_emptied_without_publish :
    fxC1b.1.CanSubmit = false
  ∧ fxC1b.1.publishCount = 1
  ∧ fxC1c.1.CanSubmit = true
  ∧ fxC1c.1.publishCount = 1 :=
  ⟨rfl, rfl, rfl, rfl⟩

/-- C1: amended.  A `validateProperty` invocation publishes the
eligibility-changed notification exactly when it toggles the ledger's
emptiness (in particular never on two consecutive invalid runs), while the
public `SetBoundWidgets` operation never publishes even though it rebuilds
the ledger empty. -/
theorem validate_publish_iff_toggle (st : St) (prop : PropId) (widget : Option Nat) :
    ((DataBinder.validateProperty st prop widget).1.publishCount
       = st.1.publishCount
         + (if (DataBinder.validateProperty st prop widget).1.CanSubmit = st.1.CanSubmit
            then 0 else 1))
  ∧ ∀ ws, (DataBinder.SetBoundWidgets st ws).1.publishCount = st.1.publishCount := by
  constructor
  · unfold DataBinder.validateProperty
    cases hv : (st.2.getProp prop).validator with
    | none => simp [hv]
    | some validate =>
        cases he : validate (st.2.getProp prop).value with
        | some e =>
            simp only [hv, he, vpFinish_eq]
            have hne := isEmpty_insertA st.1.widget2Property2Error widget
              (insertA ((lookupA st.1.widget2Property2Error widget).getD []) prop e)
            cases hb : st.1.widget2Property2Error.isEmpty <;>
              simp [DataBinder.CanSubmit, hne, hb]
        | none =>
            cases hpe : lookupA st.1.widget2Property2Error widget with
            | none => simp [hv, he, hpe, DataBinder.CanSubmit]
            | some inner =>
                have hold : st.1.widget2Property2Error.isEmpty = false :=
                  isEmpty_of_lookupA hpe
                by_cases hie : (eraseA inner prop).isEmpty
                · simp only [hv, he, hpe, hie, if_pos, vpFinish_eq]
                  cases hm : (eraseA st.1.widget2Property2Error widget).isEmpty <;>
                    simp [DataBinder.CanSubmit, hold, hm]
                · simp only [hv, he, hpe, vpFinish_eq]
                  rw [if_neg hie]
                  have hne := isEmpty_insertA st.1.widget2Property2Error widget (eraseA inner prop)
                  simp [DataBinder.CanSubmit, hne, hold, vpFinish_eq]
  · intro ws
    unfold DataBinder.SetBoundWidgets
    exact (regWidgets_spec ws _).2.2.2.1

/-- C7: amended.  After `SetBoundWidgets`, the `properties` sequence is the
previous sequence (see the stale-properties bug) extended by exactly the
properties of the supplied widgets whose `Source()` is a string — possibly
the empty string; a property is registered if and only if it is declared by
one of the new widgets and its `Source()` is textual. -/
theorem setBoundWidgets_registration_characterization (st : St) (ws : List Nat) :
    (DataBinder.SetBoundWidgets st ws).1.properties = st.1.properties ++ regList st.2 ws
  ∧ ∀ p, p ∈ regList st.2 ws ↔
      ∃ wid, wid ∈ ws ∧ p ∈ (st.2.getWidget wid).wprops
        ∧ (st.2.getProp p).source.isSome := by
  constructor
  · unfold DataBinder.SetBoundWidgets
    obtain ⟨r1, _, _, _, _⟩ := regWidgets_spec ws (sbwReset st ws)
    rw [r1]
    have hp : (sbwReset st ws).1.properties = st.1.properties := rfl
    rw [hp]
    congr 1
    exact regList_congr _ st.2
      (detachAll_sources st.1.property2ChangedHandle st.2 0).2.1
      (fun q => (detachAll_sources st.1.property2ChangedHandle st.2 q).1) ws
  · intro p
    induction ws with
    | nil => simp [regList]
    | cons wid rest ih =>
        simp only [regList, List.mem_append, List.mem_filter, ih, List.mem_cons]
        constructor
        · rintro (⟨hp, hs⟩ | ⟨w2, hw2, hp2, hs2⟩)
          · exact ⟨wid, Or.inl rfl, hp, hs⟩
          · exact ⟨w2, Or.inr hw2, hp2, hs2⟩
        · rintro ⟨w2, hw, hp2, hs2⟩
          rcases hw with hw | hw
          · subst hw
            exact Or.inl ⟨hp2, hs2⟩
          · exact Or.inr ⟨w2, hw, hp2, hs2⟩

/-- C4: amended.  With an error presenter registered, a `validateProperty`
invocation for a property with a validator notifies the presenter with the
resulting error (or no error) and the widget — except in the one case where
validation succeeds and the widget has no recorded errors, where the early
return skips the presenter. -/
theorem presenter_called_iff (st : St) (prop : PropId) (widget : Option Nat)
    (validate : Option Val → Option String)
    (hv : (st.2.getProp prop).validator = some validate)
    (hp : st.1.errorPresenter = true) :
    (DataBinder.validateProperty st prop widget).2.presentLog =
      if validate (st.2.getProp prop).value = none
          ∧ lookupA st.1.widget2Property2Error widget = none
      then st.2.presentLog
      else st.2.presentLog ++ [(validate (st.2.getProp prop).value, widget)] := by
  unfold DataBinder.validateProperty
  cases he : validate (st.2.getProp prop).value with
  | some e =>
      simp only [hv, he, vpFinish_eq]
      simp [hp, World.logGet, World.logPresent]
  | none =>
      cases hpe : lookupA st.1.widget2Property2Error widget with
      | none => simp [hv, he, hpe, World.logGet]
      | some inner =>
          by_cases hie : (eraseA inner prop).isEmpty <;>
            simp [hv, he, hpe, hie, vpFinish_eq, hp, World.logGet, World.logPresent]

/-- C4 witness: a failing validation with a presenter registered notifies the
presenter with the error and the widget. -/
theorem presenter_called_iff_witness :
    (DataBinder.validateProperty (fxPresenterBinder, fxWorldFailVal) 0 (some 100)).2.presentLog
      = [(some "bad", some 100)] := by
  have h := presenter_called_iff (fxPresenterBinder, fxWorldFailVal) 0 (some 100)
    (fun _ => some "bad") rfl rfl
  simpa using h

/-- C4 counterexample: with an error presenter registered and a property
whose validator passes while its widget has no recorded errors,
`validateProperty` returns without invoking the presenter (the early return
of line 99), so the presenter is not called on every validation run. -/
theorem presenter_skipped_on_clean_success :
    fxPresenterBinder.errorPresenter = true
  ∧ (fxWorldPassVal.getProp 0).validator.isSome = true
  ∧ lookupA fxPresenterBinder.widget2Property2Error (some 100) = none
  ∧ (DataBinder.validateProperty (fxPresenterBinder, fxWorldPassVal) 0 (some 100)).2.presentLog
      = [] :=
  ⟨rfl, rfl, rfl, rfl⟩

/-- C3 counterexample: an `int64` model field holding `2^53 + 1` (not
exactly representable in `float64`), exposed through a `float64`-reporting
property with no validator, drifts to `2^53` after `Reset` immediately
followed by `Submit`: the round trip changes the model. -/
theorem reset_submit_drift :
    ((fxDrift0.1.dataSource.getD (.vString "")).indirect.fieldByName "N")
      = some (.vInt .i64 9007199254740993)
  ∧ (DataBinder.Reset fxDrift0).1 = .ok
  ∧ (DataBinder.Submit fxDrift1).1 = .ok
  ∧ ((fxDrift2.1.dataSource.getD (.vString "")).indirect.fieldByName "N")
      = some (.vInt .i64 9007199254740992)
  ∧ (9007199254740992 : Int) ≠ 9007199254740993 :=
  ⟨rfl, rfl, rfl, rfl, by decide⟩

/-- C3: amended.  For every model (held as a non-nil pointer to a
well-formed struct: integer fields in range and — the amendment — exactly
representable in `float64`, `float32` fields 24-bit representable, no
error-valued fields) and every binder state whose validators all pass, if
`Reset` succeeds then the model is unchanged after `Reset`, and the
immediately following `Submit` leaves every model field with the value it
had before `Reset` (including integer fields exposed through a generic
`float64` property, e.g. 5 via 5.0). -/
theorem reset_submit_roundtrip (st : St) (e : Ty) (s0 : Val)
    (hds : st.1.dataSource = some (.vPtr e (some s0)))
    (hwf : s0.reprB = true)
    (_hvalpass : ∀ p ∈ st.1.properties,
        match (st.2.getProp p).validator with
        | none => True
        | some vf => ∀ v, vf v = none)
    (hok : (DataBinder.Reset st).1 = .ok) :
    (DataBinder.Reset st).2.1.dataSource = some (.vPtr e (some s0))
  ∧ (DataBinder.Submit (DataBinder.Reset st).2).2.1.dataSource
      = some (.vPtr e (some s0)) := by
  have hs0 : s0.isStruct = true := by
    by_contra hns
    have hns' : s0.isStruct = false := by simpa using hns
    unfold DataBinder.Reset DataBinder.forEach at hok
    rw [hds] at hok
    simp [Val.kindIsPtr, Val.isNilPtr, Val.indirect, hns'] at hok
  have hEq : DataBinder.Reset st
      = forEachProps resetAction st (.vPtr e (some s0)) st.1.properties := by
    unfold DataBinder.Reset DataBinder.forEach
    rw [hds]
    simp [Val.kindIsPtr, Val.isNilPtr, Val.indirect, hs0]
  rw [hEq] at hok ⊢
  cases hR : forEachProps resetAction st (.vPtr e (some s0)) st.1.properties with
  | mk o stF =>
      rw [hR] at hok
      replace hok : o = Out.ok := hok
      subst hok
      obtain ⟨i1, i2, i3, i4, i5⟩ := resetLoop e s0 st.1.properties st stF hds hR
      refine ⟨i1, ?_⟩
      unfold DataBinder.Submit
      by_cases hcs : stF.1.CanSubmit
      · rw [if_neg (by simpa using hcs)]
        unfold DataBinder.forEach
        rw [i1]
        simp only [Val.kindIsPtr, Val.isNilPtr, Val.indirect, hs0, Bool.not_true,
          Bool.false_eq_true, not_false_eq_true, if_false, if_true, not_true_eq_false]
        apply submitLoop e s0 hwf
        · exact i1
        · intro q hq
          rw [i2] at hq
          exact i5 q hq
      · rw [if_pos (by simpa using hcs)]
        exact i1

/-- C3 witness: an `int64` field of value 5 exposed through a `float64`
property round-trips through `Reset` then `Submit` back to exactly 5. -/
theorem reset_submit_roundtrip_witness :
    (DataBinder.Submit
        (DataBinder.Reset (fxBinder (some (fxModelI64 5)), fxWorldN)).2).2.1.dataSource
      = some (.vPtr (.tStruct "Data" (.cons "N" (.tInt .i64) .nil))
          (some (.vStruct "Data" (.cons "N" (.vInt .i64 5) .nil)))) := by
  have h := reset_submit_roundtrip (fxBinder (some (fxModelI64 5)), fxWorldN)
    (.tStruct "Data" (.cons "N" (.tInt .i64) .nil))
    (.vStruct "Data" (.cons "N" (.vInt .i64 5) .nil)) rfl (by decide)
    (by
      intro p hp
      have hp0 : p = 0 := by simpa [fxBinder] using hp
      subst hp0
      trivial)
    rfl
  exact h.2

/-- C8: during `Reset`, for a property currently reporting a generic
`float64` value: if the resolved field is of any standard signed, unsigned
or floating width (exactly the types accepted by `toF64`), the field's value
is converted to `float64` and that converted value is passed to `Set`; if
the field's type is none of those, the action fails with a `BindingError`
naming the field's path and the unsupported type, and `Set` is not called
(the `Set`-call log is unchanged). -/
theorem reset_numeric_coercion (st : St) (prop : PropId) (field : Val) (q0 : Rat)
    (hval : (st.2.getProp prop).value = some (.vFloat .f64 q0))
    (hset : (st.2.getProp prop).setErr = none) :
    (∀ f, toF64 field = some f →
       ∃ st', resetAction prop field st = .ok field st'
         ∧ (st'.2.getProp prop).value = some (.vFloat .f64 f)
         ∧ st'.2.setLog = st.2.setLog ++ [prop])
  ∧ (toF64 field = none →
       resetAction prop field st
         = .err (.binding ("Field '" ++ ((st.2.getProp prop).source.getD "") ++ "': Can't convert "
             ++ field.tyName ++ " to float64.")) (st.1, st.2.logGet prop)
       ∧ (st.2.logGet prop).setLog = st.2.setLog)
  ∧ ((toF64 field).isSome = true ↔
       (∃ w n, field = .vInt w n) ∨ (∃ w n, field = .vUint w n)
         ∨ (∃ w q, field = .vFloat w q)) := by
  refine ⟨?_, ?_, ?_⟩
  · intro f hf
    refine ⟨DataBinder.validateProperty
      (st.1, ((st.2.logGet prop).logSet prop).modifyProp prop
        fun ps => { ps with value := some (.vFloat .f64 f) })
      prop (lookupA st.1.property2Widget prop), ?_, ?_, ?_⟩
    · unfold resetAction
      simp only [hval, hf]
      have hse : ((st.2.logGet prop).getProp prop).setErr = none := hset
      rw [callSet_none hse]
    · have hps := (vp_frame (st.1, ((st.2.logGet prop).logSet prop).modifyProp prop
        fun ps => { ps with value := some (.vFloat .f64 f) })
        prop (lookupA st.1.property2Widget prop)).2.2.2.2.2.1
      unfold World.getProp
      rw [hps]
      unfold World.modifyProp
      rw [lookupA_insertA_self]
      rfl
    · have hsl := (vp_frame (st.1, ((st.2.logGet prop).logSet prop).modifyProp prop
        fun ps => { ps with value := some (.vFloat .f64 f) })
        prop (lookupA st.1.property2Widget prop)).2.2.2.2.2.2.2
      rw [hsl]
      rfl
  · intro hnone
    constructor
    · unfold resetAction
      simp [hval, hnone]
    · rfl
  · cases field with
    | vInt w n =>
        simp only [toF64, Option.isSome_some]
        exact ⟨fun _ => Or.inl ⟨w, n, rfl⟩, fun _ => trivial⟩
    | vUint w n =>
        simp only [toF64, Option.isSome_some]
        exact ⟨fun _ => Or.inr (Or.inl ⟨w, n, rfl⟩), fun _ => trivial⟩
    | vFloat w q =>
        cases w <;> exact ⟨fun _ => Or.inr (Or.inr ⟨_, q, rfl⟩), fun _ => rfl⟩
    | vString s => simp [toF64]
    | vErrVal m => simp [toF64]
    | vStruct n fs => simp [toF64]
    | vPtr e t => simp [toF64]

/-- C8 witness: an `int64` field of value 5 is converted to the `float64`
5.0 and passed to `Set`; a `string` field yields the `BindingError`
"Field 'N': Can't convert string to float64." and `Set` is never called. -/
theorem reset_numeric_coercion_witness :
    (∃ st', resetAction 0 (.vInt .i64 5) (fxBinder (some (fxModelI64 5)), fxWorldN)
        = .ok (.vInt .i64 5) st'
      ∧ (st'.2.getProp 0).value = some (.vFloat .f64 (roundPrec 53 (qInt 5)))
      ∧ st'.2.setLog = fxWorldN.setLog ++ [0])
  ∧ resetAction 0 (.vString "hi") (fxBinder (some fxModelStr), fxWorldN)
      = .err (.binding "Field 'N': Can't convert string to float64.")
          (fxBinder (some fxModelStr), fxWorldN.logGet 0) := by
  constructor
  · exact (reset_numeric_coercion (fxBinder (some (fxModelI64 5)), fxWorldN) 0
      (.vInt .i64 5) 0 rfl rfl).1 (roundPrec 53 (qInt 5)) rfl
  · exact ((reset_numeric_coercion (fxBinder (some fxModelStr), fxWorldN) 0
      (.vString "hi") 0 rfl rfl).2.1 rfl).1

/-- C9: when `Reset` returns successfully over a struct-pointer data source
(with a well-formed ledger and no duplicate registrations), the ledger
reflects the post-reset values of all registered properties: for every
registered property with a validator, the ledger entry for that property and
its owning control equals the validator applied to the property's value as it
stands after `Reset`. -/
theorem reset_revalidates_ledger (st : St) (e : Ty) (s0 : Val)
    (hds : st.1.dataSource = some (.vPtr e (some s0)))
    (hwfL : ledgerWF st.1)
    (hnd : st.1.properties.Nodup)
    (hok : (DataBinder.Reset st).1 = .ok) :
    ∀ p ∈ st.1.properties, ∀ vf, (st.2.getProp p).validator = some vf →
      lookup2 (DataBinder.Reset st).2.1 (lookupA st.1.property2Widget p) p
        = vf (((DataBinder.Reset st).2.2.getProp p).value) := by
  have hs0 : s0.isStruct = true := by
    by_contra hns
    have hns' : s0.isStruct = false := by simpa using hns
    unfold DataBinder.Reset DataBinder.forEach at hok
    rw [hds] at hok
    simp [Val.kindIsPtr, Val.isNilPtr, Val.indirect, hns'] at hok
  have hEq : DataBinder.Reset st
      = forEachProps resetAction st (.vPtr e (some s0)) st.1.properties := by
    unfold DataBinder.Reset DataBinder.forEach
    rw [hds]
    simp [Val.kindIsPtr, Val.isNilPtr, Val.indirect, hs0]
  rw [hEq] at hok ⊢
  cases hR : forEachProps resetAction st (.vPtr e (some s0)) st.1.properties with
  | mk o stF =>
      rw [hR] at hok
      replace hok : o = Out.ok := hok
      subst hok
      obtain ⟨_, _, _, _, _, i6⟩ :=
        resetLedgerLoop e s0 st.1.properties st stF hR hwfL hnd
      exact i6

/-- C9 witness: resetting an `int64` field of value 5 into a property whose
validator always reports "bad" leaves the ledger entry for (widget 100,
property 0) equal to the validator's verdict on the post-reset value. -/
theorem reset_revalidates_ledger_witness :
    lookup2 (DataBinder.Reset (fxBinder (some (fxModelI64 5)), fxWorldFailVal)).2.1
        (lookupA (fxBinder (some (fxModelI64 5))).property2Widget 0) 0
      = (fun _ => some "bad")
          (((DataBinder.Reset
              (fxBinder (some (fxModelI64 5)), fxWorldFailVal)).2.2.getProp 0).value) :=
  reset_revalidates_ledger (fxBinder (some (fxModelI64 5)), fxWorldFailVal)
    (.tStruct "Data" (.cons "N" (.tInt .i64) .nil))
    (.vStruct "Data" (.cons "N" (.vInt .i64 5) .nil))
    rfl
    ⟨List.nodup_nil, fun w inner h => by
      simp [fxBinder, NewDataBinder, lookupA] at h⟩
    (by decide) rfl 0 (by decide) _ rfl

end Walk
